import Mathlib

/-!
Verification development for a Monday.com Gantt-chart widget.

The development shallowly embeds the task-derivation pipeline
(`DataProcessor` in the repository: timeline extraction, mirror-data
resolution, progress extraction, the sort comparator) and the timeline
layout / interaction layer (`GanttChart`: valid-task filtering, window
computation, hierarchy grouping; `GanttBar`: bar sizing and drag updates).

Modelling conventions:
  * JavaScript `Date` values are calendar days since the Unix epoch
    (`Int`); an *invalid* date (`new Date` of unparsable input) is `none`
    in `JSDate := Option Int`.  A nullable date field is `Option JSDate`.
  * JavaScript numbers are integers here (`Int`); `NaN` is modelled by
    `none` in `Option Int`.  Fractional numerics do not affect any of the
    properties below, which concern comparisons and clamping only.
  * Raw column payloads (`value` fields, JSON text on the wire) are
    modelled by `Jsonish`: either well-formed JSON (already in decoded
    form) or a malformed raw string on which `JSON.parse` throws.  JSON
    values are modelled to the depth the code inspects: scalars and
    one-level objects with scalar fields.
  * `String.prototype.localeCompare` is modelled as code-point
    comparison, and `toLowerCase` as character-wise lowering.
-/

/-- Three-way code-point comparison of character lists, the model of
JavaScript `localeCompare` (sign-accurate for the strings that occur
here). -/
def cmpChars : List Char → List Char → Int
  | [], [] => 0
  | [], _ :: _ => -1
  | _ :: _, [] => 1
  | a :: as, b :: bs =>
    if a.toNat < b.toNat then -1
    else if b.toNat < a.toNat then 1
    else cmpChars as bs

/-- Model of `aStr.localeCompare(bStr)`. -/
def strCompare (a b : String) : Int := cmpChars a.data b.data

/-- Model of JavaScript `toLowerCase` (character-wise). -/
def toLowerStr (s : String) : String := String.mk (s.data.map Char.toLower)

/-- Does the pattern occur at the head of the list? -/
def listStartsWith : List Char → List Char → Bool
  | _, [] => true
  | [], _ :: _ => false
  | c :: cs, p :: ps => c == p && listStartsWith cs ps

/-- Does the pattern occur contiguously anywhere in the list? -/
def listHasSub : List Char → List Char → Bool
  | [], pat => pat.isEmpty
  | c :: rest, pat => listStartsWith (c :: rest) pat || listHasSub rest pat

/-- Model of JavaScript `String.prototype.includes` (substring test). -/
def strContains (s sub : String) : Bool := listHasSub s.data sub.data

/-- A scalar JSON value. -/
inductive JsonScalar where
  | snull
  | sbool (b : Bool)
  | snum (n : Int)
  | sstr (s : String)
deriving DecidableEq, Repr

/-- A decoded JSON value, modelled to the depth the widget's decoders
inspect: scalars, or a one-level object with scalar fields. -/
inductive JsonVal where
  | scalar (s : JsonScalar)
  | jobj (fields : List (String × JsonScalar))
deriving DecidableEq, Repr

/-- A raw column payload: either text that `JSON.parse` rejects, or
well-formed JSON given by its decoded value. -/
inductive Jsonish where
  | malformed (raw : String)
  | json (v : JsonVal)
deriving DecidableEq, Repr

/-- Model of `JSON.parse` on a raw payload: `none` when it throws. -/
def jsonParse : Jsonish → Option JsonVal
  | .malformed _ => none
  | .json v => some v

/-- The raw text of a payload, as handed to a failed `JSON.parse`
(`Jsonish.json` values re-serialize; only the malformed raw text is
needed by the code paths modelled here). -/
def jsonishRaw : Jsonish → String
  | .malformed s => s
  | .json _ => ""

/-- JavaScript truthiness of a nullable raw payload string
(`null`/`undefined` and the empty string are falsy; well-formed JSON
source text is never empty). -/
def truthyValue : Option Jsonish → Bool
  | none => false
  | some (.malformed s) => s ≠ ""
  | some (.json _) => true

/-- JavaScript truthiness of a scalar JSON value. -/
def truthyScalar : JsonScalar → Bool
  | .snull => false
  | .sbool b => b
  | .snum n => n ≠ 0
  | .sstr s => s ≠ ""

/-- JavaScript truthiness of a decoded JSON value (objects are always
truthy). -/
def truthyJsonVal : JsonVal → Bool
  | .scalar s => truthyScalar s
  | .jobj _ => true

/-- Property access `obj.field` on a decoded JSON value: `none` models
`undefined` (scalar receivers have no own properties of interest). -/
def getField (v : JsonVal) (key : String) : Option JsonScalar :=
  match v with
  | .scalar _ => none
  | .jobj fields => (fields.find? (fun p => p.1 == key)).map (·.2)

/-- The numeric value of a digit list (most significant first). -/
def digitsToNat (l : List Char) : Nat :=
  l.foldl (fun acc c => acc * 10 + (c.toNat - 48)) 0

/-- Model of JavaScript `Number(s)` on a non-empty string, restricted to
integer numerals: an optional sign followed by digits; anything else is
`NaN`. -/
def parseIntStr (s : String) : Option Int :=
  match s.data with
  | '-' :: rest =>
    if rest ≠ [] ∧ rest.all Char.isDigit then some (-(digitsToNat rest : Int)) else none
  | l =>
    if l ≠ [] ∧ l.all Char.isDigit then some (digitsToNat l : Int) else none

/-- Model of JavaScript `ToNumber` on a decoded JSON value (`none` is
`NaN`); strings convert via `Number(s)`, restricted to integer
numerals. -/
def toNumber : JsonVal → Option Int
  | .scalar .snull => some 0
  | .scalar (.sbool b) => some (if b then 1 else 0)
  | .scalar (.snum n) => some n
  | .scalar (.sstr s) => if s = "" then some 0 else parseIntStr s
  | .jobj _ => none

/-- Model of JavaScript `parseFloat` applied to a decoded JSON value
(numbers pass through; strings parse a leading integer numeral; all
other values are `NaN`). -/
def parseFloatJson : JsonVal → Option Int
  | .scalar (.snum n) => some n
  | .scalar (.sstr s) =>
    match s.data with
    | '-' :: rest =>
      if (rest.takeWhile Char.isDigit) = [] then none
      else some (-(digitsToNat (rest.takeWhile Char.isDigit) : Int))
    | l =>
      if (l.takeWhile Char.isDigit) = [] then none
      else some (digitsToNat (l.takeWhile Char.isDigit) : Int)
  | _ => none

/-- A JavaScript `Date` value: the calendar day since the Unix epoch, or
`none` for an Invalid Date. -/
abbrev JSDate := Option Int

/-- Days since the Unix epoch of a proleptic-Gregorian civil date
(standard civil-calendar conversion). -/
def daysFromCivil (y : Int) (m d : Nat) : Int :=
  let y' : Int := if m ≤ 2 then y - 1 else y
  let era : Int := (if 0 ≤ y' then y' else y' - 399) / 400
  let yoe : Nat := (y' - era * 400).toNat
  let mp : Nat := if 2 < m then m - 3 else m + 9
  let doy : Nat := (153 * mp + 2) / 5 + d - 1
  let doe : Nat := yoe * 365 + yoe / 4 - yoe / 100 + doy
  era * 146097 + (doe : Int) - 719468

/-- Civil date (year, month, day) of a day count since the Unix epoch. -/
def civilFromDays (z : Int) : Int × Nat × Nat :=
  let z' : Int := z + 719468
  let era : Int := (if 0 ≤ z' then z' else z' - 146096) / 146097
  let doe : Nat := (z' - era * 146097).toNat
  let yoe : Nat := (doe - doe / 1460 + doe / 36524 - doe / 146096) / 365
  let doy : Nat := doe - (365 * yoe + yoe / 4 - yoe / 100)
  let mp : Nat := (5 * doy + 2) / 153
  let d : Nat := doy - (153 * mp + 2) / 5 + 1
  let m : Nat := if mp < 10 then mp + 3 else mp - 9
  (if m ≤ 2 then era * 400 + yoe + 1 else era * 400 + yoe, m, d)

/-- Weekday name of a day count (day 0, 1970-01-01, was a Thursday),
as printed by JavaScript `Date.prototype.toString`. -/
def weekdayName (d : Int) : String :=
  match ((d + 4) % 7).toNat with
  | 0 => "Sun"
  | 1 => "Mon"
  | 2 => "Tue"
  | 3 => "Wed"
  | 4 => "Thu"
  | 5 => "Fri"
  | 6 => "Sat"
  | _ => "Sun"

/-- Month name as printed by JavaScript `Date.prototype.toString`. -/
def monthName (m : Nat) : String :=
  match m with
  | 1 => "Jan" | 2 => "Feb" | 3 => "Mar" | 4 => "Apr"
  | 5 => "May" | 6 => "Jun" | 7 => "Jul" | 8 => "Aug"
  | 9 => "Sep" | 10 => "Oct" | 11 => "Nov" | _ => "Dec"

/-- Two-digit zero-padded numeral. -/
def pad2 (n : Nat) : String := if n < 10 then "0" ++ toString n else toString n

/-- Model of JavaScript `String(date)` for a date at UTC midnight, e.g.
`Thu Jan 01 1970 00:00:00 GMT+0000 (Coordinated Universal Time)`; an
Invalid Date prints `Invalid Date`. -/
def dateToString (d : JSDate) : String :=
  match d with
  | none => "Invalid Date"
  | some t =>
    let c := civilFromDays t
    weekdayName t ++ " " ++ monthName c.2.1 ++ " " ++ pad2 c.2.2 ++ " " ++
      toString c.1 ++ " 00:00:00 GMT+0000 (Coordinated Universal Time)"

example : daysFromCivil 2024 3 1 - daysFromCivil 2024 2 23 = 7 := by decide
example : daysFromCivil 2024 3 10 - daysFromCivil 2024 3 3 = 7 := by decide
example : civilFromDays (daysFromCivil 2024 3 1) = (2024, 3, 1) := by decide
example : dateToString (some 0) =
    "Thu Jan 01 1970 00:00:00 GMT+0000 (Coordinated Universal Time)" := by decide

/-! ## Data model (`src/types/index.ts`) -/

/-- A column definition on a board (`MondayColumn`). -/
structure MondayColumn where
  id : String
  title : String
  type : String
  settings_str : Option String
  archived : Bool
deriving DecidableEq, Repr

/-- A group on a board (`MondayGroup`). -/
structure MondayGroup where
  id : String
  title : String
  color : String
  position : String
deriving DecidableEq, Repr

/-- A typed field value on an item (`MondayColumnValue`); `value` is the
raw encoded payload (nullable), `text` the precomputed display text. -/
structure MondayColumnValue where
  id : String
  title : String
  type : String
  value : Option Jsonish
  text : String
deriving DecidableEq, Repr

/-- One unit of work (`MondayItem`).  The optional `subitems` list is not
consumed by any function modelled here (subitem recursion happens one
level up, in `processItemsToGanttTasks`) and is omitted. -/
structure MondayItem where
  id : String
  name : String
  column_values : List MondayColumnValue
  group : Option MondayGroup
deriving DecidableEq, Repr

/-- A board (`MondayBoard`). -/
structure MondayBoard where
  id : String
  name : String
  description : Option String
  board_kind : String
  columns : List MondayColumn
  groups : List MondayGroup
deriving DecidableEq, Repr

/-- A resolved cross-board mirror reference (`MirrorColumnMapping`). -/
structure MirrorColumnMapping where
  sourceColumnId : String
  sourceColumnTitle : String
  sourceBoardId : String
  sourceBoardName : String
  mirrorColumnId : String
  mirrorColumnTitle : String
  targetBoardId : String
deriving DecidableEq, Repr

/-- The raw value stored in a resolved mirror entry: the decoded JSON on
parse success, or the raw payload string on parse failure. -/
inductive MirrorRawValue where
  | parsed (v : JsonVal)
  | rawText (s : String)
deriving DecidableEq, Repr

/-- One resolved mirror entry (the record stored per mirror column id by
`extractMirrorData`). -/
structure MirrorDatum where
  displayValue : String
  rawValue : MirrorRawValue
  sourceColumnTitle : String
  sourceBoardName : String
  type : String
deriving DecidableEq, Repr

/-- The extracted timeline range (`TimelineData`): nullable start and end
dates. -/
structure TimelineData where
  from_ : Option JSDate
  to_ : Option JSDate
deriving DecidableEq, Repr

/-- A derived schedulable task (`GanttTask`).  The never-assigned
`children` field of the TypeScript interface is omitted. -/
structure GanttTask where
  id : String
  name : String
  startDate : Option JSDate
  endDate : Option JSDate
  progress : Option Int
  color : String
  group : String
  boardId : String
  boardName : String
  parentId : Option String
  originalItem : MondayItem
  mirrorData : List (String × MirrorDatum)
deriving DecidableEq, Repr

/-- Sort direction. -/
inductive SortDir where
  | asc
  | desc
deriving DecidableEq, Repr

/-- Widget configuration (`GanttSettings`). -/
structure GanttSettings where
  colorByColumn : Option String
  groupByColumn : Option String
  sortByColumn : Option String
  sortDirection : Option SortDir
  showSubitems : Bool
  timelineColumn : Option String
  mirrorColumns : List String
  selectedBoards : List String
deriving DecidableEq, Repr

/-! ## Field Extractor and Mirror Resolver (`DataProcessor`) -/

/-- Split a character list at every occurrence of a separator. -/
def splitOnChar (sep : Char) : List Char → List (List Char)
  | [] => [[]]
  | c :: cs =>
    if c == sep then [] :: splitOnChar sep cs
    else
      match splitOnChar sep cs with
      | h :: t => (c :: h) :: t
      | [] => [[c]]

/-- Parse a non-empty all-digit chunk. -/
def chunkToNat (cs : List Char) : Option Nat :=
  if cs ≠ [] ∧ cs.all Char.isDigit then some (digitsToNat cs) else none

/-- Parse of a `YYYY-MM-DD` date string by `new Date`; other shapes are
modelled as an Invalid Date. -/
def parseDateStr (s : String) : JSDate :=
  match (splitOnChar '-' s.data).map chunkToNat with
  | [some y, some m, some d] =>
    if 1 ≤ m && m ≤ 12 && 1 ≤ d && d ≤ 31 then some (daysFromCivil y m d) else none
  | _ => none

/-- Model of `new Date(x)` for a scalar payload field: date strings parse
to a day count; non-string scalars are modelled as an Invalid Date. -/
def newDateFromScalar : JsonScalar → JSDate
  | .sstr s => parseDateStr s
  | _ => none

/-- Model of `x ? new Date(x) : null` on an optional scalar field. -/
def dateOfOptField (f : Option JsonScalar) : Option JSDate :=
  match f with
  | some s => if truthyScalar s then some (newDateFromScalar s) else none
  | none => none

/-- `extractTimelineData(item, timelineColumnId?)`: choose the timeline
column (explicit id, else the first `timeline`/`date`/`creation_log`
column) and decode its payload into a start/end pair. -/
def extractTimelineData (item : MondayItem) (timelineColumnId : Option String) :
    TimelineData :=
  let timelineColumn : Option MondayColumnValue :=
    match timelineColumnId with
    | some cid => item.column_values.find? (fun cv => cv.id == cid)
    | none => item.column_values.find? (fun cv =>
        cv.type == "timeline" || cv.type == "date" || cv.type == "creation_log")
  match timelineColumn with
  | none => ⟨none, none⟩
  | some tc =>
    if truthyValue tc.value then
      if tc.type == "timeline" then
        match tc.value with
        | some (.json v) =>
          ⟨dateOfOptField (getField v "from"), dateOfOptField (getField v "to")⟩
        | _ => ⟨none, none⟩
      else if tc.type == "date" then
        match tc.value with
        | some (.json v) =>
          let d := dateOfOptField (getField v "date")
          ⟨d, d⟩
        | _ => ⟨none, none⟩
      else ⟨none, none⟩
    else ⟨none, none⟩

/-- Insert-or-replace on the assoc list modelling the `mirrorData`
object (JavaScript keyed assignment keeps the original key position). -/
def mirrorUpsert (l : List (String × MirrorDatum)) (k : String) (v : MirrorDatum) :
    List (String × MirrorDatum) :=
  if l.any (fun p => p.1 == k) then
    l.map (fun p => if p.1 == k then (k, v) else p)
  else l ++ [(k, v)]

/-- The raw value stored by `extractMirrorData`: the decoded payload on
`JSON.parse` success, the raw payload string on failure. -/
def mirrorRawOf (v : Option Jsonish) : MirrorRawValue :=
  match v with
  | some (.json j) => .parsed j
  | some (.malformed s) => .rawText s
  | none => .rawText ""

/-- The body of the `mappings.forEach` of `extractMirrorData`: look up
the mirror column on the item and, when its value is truthy, store the
entry under the mirror column id. -/
def mirrorStep (item : MondayItem) (mirrorData : List (String × MirrorDatum))
    (mapping : MirrorColumnMapping) : List (String × MirrorDatum) :=
  match item.column_values.find? (fun cv => cv.id == mapping.mirrorColumnId) with
  | some mc =>
    if truthyValue mc.value then
      mirrorUpsert mirrorData mapping.mirrorColumnId
        ⟨mc.text, mirrorRawOf mc.value, mapping.sourceColumnTitle,
          mapping.sourceBoardName, mc.type⟩
    else mirrorData
  | none => mirrorData

/-- `extractMirrorData(item, boardId)`: for each mapping of the owning
board whose mirror column has a truthy value on the item, store an entry;
on `JSON.parse` success the raw value is the decoded payload, on failure
it is the raw payload string (the display value is the column text in
both cases).  The per-board mapping table (instance state in the source)
is an explicit argument. -/
def extractMirrorData (item : MondayItem) (mappings : List MirrorColumnMapping) :
    List (String × MirrorDatum) :=
  mappings.foldl (mirrorStep item) []

/-- The progress-column selector of `extractProgress`: a numeric column
whose lowercased title contains `progress`, `complete` or `%`. -/
def isProgressColumn (cv : MondayColumnValue) : Bool :=
  cv.type == "numeric" &&
    (strContains (toLowerStr cv.title) "progress" ||
     strContains (toLowerStr cv.title) "complete" ||
     strContains (toLowerStr cv.title) "%")

/-- `extractProgress(item)`: first numeric column whose lowercased title
contains `progress`, `complete` or `%`; clamp of the decoded payload via
`Math.max(0, Math.min(100, numericValue || 0))` (the result is a
JavaScript number, `none` = `NaN`). -/
def extractProgress (item : MondayItem) : Option Int :=
  match item.column_values.find? isProgressColumn with
  | some pc =>
    if truthyValue pc.value then
      match pc.value with
      | some (.json v) =>
        if truthyJsonVal v then
          match toNumber v with
          | some n => some (max 0 (min 100 n))
          | none => none
        else some 0
      | _ => some 0
    else some 0
  | none => some 0

/-- Skip JSON whitespace. -/
def skipWs : List Char → List Char
  | c :: cs => if c == ' ' || c == '\t' || c == '\n' || c == '\r' then skipWs cs else c :: cs
  | [] => []

/-- Parse one scalar JSON token (literals, integer numerals, and strings
without escape sequences), returning the value and the remaining
input. -/
def parseScalarTok (l : List Char) : Option (JsonScalar × List Char) :=
  if listStartsWith l "null".data then some (.snull, l.drop 4)
  else if listStartsWith l "true".data then some (.sbool true, l.drop 4)
  else if listStartsWith l "false".data then some (.sbool false, l.drop 5)
  else
    match l with
    | '"' :: rest =>
      let body := rest.takeWhile (fun c => c ≠ '"')
      (match rest.drop body.length with
       | '"' :: rest' => some (.sstr (String.mk body), rest')
       | _ => none)
    | '-' :: rest =>
      let ds := rest.takeWhile Char.isDigit
      if ds = [] then none
      else some (.snum (-(digitsToNat ds : Int)), rest.drop ds.length)
    | l =>
      let ds := l.takeWhile Char.isDigit
      if ds = [] then none
      else some (.snum (digitsToNat ds : Int), l.drop ds.length)

/-- Parse the member list of a flat JSON object, after the opening
brace; `fuel` bounds the recursion by the input length. -/
def parseMembers (fuel : Nat) (l : List Char) :
    Option (List (String × JsonScalar) × List Char) :=
  match fuel with
  | 0 => none
  | fuel + 1 =>
    match skipWs l with
    | '}' :: rest => some ([], rest)
    | '"' :: rest =>
      let body := rest.takeWhile (fun c => c ≠ '"')
      (match rest.drop body.length with
       | '"' :: rest' =>
         (match skipWs rest' with
          | ':' :: rest'' =>
            (match parseScalarTok (skipWs rest'') with
             | some (v, rest3) =>
               (match skipWs rest3 with
                | ',' :: rest4 =>
                  (match parseMembers fuel rest4 with
                   | some (ms, rest5) => some ((String.mk body, v) :: ms, rest5)
                   | none => none)
                | '}' :: rest4 => some ([(String.mk body, v)], rest4)
                | _ => none)
             | none => none)
          | _ => none)
       | _ => none)
    | _ => none

/-- Model of `JSON.parse` on raw text, within the modelled JSON fragment
(scalars and flat objects, strings without escapes): `none` when it
throws. -/
def parseJsonText (s : String) : Option JsonVal :=
  match skipWs s.data with
  | '{' :: rest =>
    (match parseMembers (rest.length + 1) rest with
     | some (ms, rest') => if skipWs rest' = [] then some (.jobj ms) else none
     | none => none)
  | l =>
    (match parseScalarTok l with
     | some (v, rest) => if skipWs rest = [] then some (.scalar v) else none
     | none => none)

/-- Default task color used throughout the extractor fallbacks. -/
def defaultColor : String := "#037f4c"

/-- The `colorData.color || default` step shared by the color decoders:
read the `color` field of a decoded JSON value. -/
def colorFieldOr (v : JsonVal) : String :=
  match getField v "color" with
  | some (.sstr c) => if c ≠ "" then c else defaultColor
  | _ => defaultColor

/-- JavaScript truthiness of a stored mirror raw value. -/
def truthyMirrorRaw : MirrorRawValue → Bool
  | .rawText s => s ≠ ""
  | .parsed v => truthyJsonVal v

/-- `getColorFromValue(mirrorValue)`: the two identical `color` and
`status` branches of the source are folded into one test.  For a truthy
raw value, string raw values (raw text, or a decoded JSON string) are
re-parsed with `JSON.parse` — a throw falls back to the default — and the
`color` field of the resulting data is read. -/
def getColorFromValue (mv : MirrorDatum) : String :=
  if (mv.type == "color" || mv.type == "status") && truthyMirrorRaw mv.rawValue then
    match mv.rawValue with
    | .rawText s =>
      (match parseJsonText s with
       | some v' => colorFieldOr v'
       | none => defaultColor)
    | .parsed (.scalar (.sstr s)) =>
      (match parseJsonText s with
       | some v' => colorFieldOr v'
       | none => defaultColor)
    | .parsed v => colorFieldOr v
  else defaultColor

/-- `getColorFromColumnValue(column)`: decode the column payload for
`color`/`status`/`dropdown` columns and read its `color` field; all
failures yield the default color. -/
def getColorFromColumnValue (column : MondayColumnValue) : String :=
  if truthyValue column.value then
    match column.value with
    | some (.json v) =>
      if column.type == "color" || column.type == "status" ||
          column.type == "dropdown" then colorFieldOr v
      else defaultColor
    | _ => defaultColor
  else defaultColor

/-- Assoc-list lookup modelling `mirrorData[columnId]`. -/
def mirrorLookup (mirrorData : List (String × MirrorDatum)) (k : String) :
    Option MirrorDatum :=
  (mirrorData.find? (fun p => p.1 == k)).map (·.2)

/-- `extractColor(item, colorByColumnId?, mirrorData?)`. -/
def extractColor (item : MondayItem) (colorByColumnId : Option String)
    (mirrorData : List (String × MirrorDatum)) : String :=
  match colorByColumnId with
  | some cid =>
    match mirrorLookup mirrorData cid with
    | some mv => getColorFromValue mv
    | none =>
      match item.column_values.find? (fun cv => cv.id == cid) with
      | some colorColumn => getColorFromColumnValue colorColumn
      | none =>
        match item.group with
        | some g => g.color
        | none => defaultColor
  | none =>
    match item.group with
    | some g => g.color
    | none => defaultColor

/-- `extractGroup(item, groupByColumnId?, mirrorData?)`. -/
def extractGroup (item : MondayItem) (groupByColumnId : Option String)
    (mirrorData : List (String × MirrorDatum)) : String :=
  match groupByColumnId with
  | some gid =>
    match mirrorLookup mirrorData gid with
    | some mv => if mv.displayValue ≠ "" then mv.displayValue else "Unknown"
    | none =>
      match item.column_values.find? (fun cv => cv.id == gid) with
      | some groupColumn => if groupColumn.text ≠ "" then groupColumn.text else "Unknown"
      | none =>
        match item.group with
        | some g => if g.title ≠ "" then g.title else "No Group"
        | none => "No Group"
  | none =>
    match item.group with
    | some g => if g.title ≠ "" then g.title else "No Group"
    | none => "No Group"

/-! ## Task Builder (`DataProcessor.convertItemToGanttTask`) -/

/-- `convertItemToGanttTask(item, board, settings, parentId?)`: extract
the timeline range, drop the item when both endpoints are null, and
otherwise assemble the task from the extractor outputs.  The per-board
mirror mapping table (instance state in the source) is an explicit
argument. -/
def convertItemToGanttTask (mappings : List MirrorColumnMapping)
    (item : MondayItem) (board : MondayBoard) (settings : GanttSettings)
    (parentId : Option String) : Option GanttTask :=
  let timelineData := extractTimelineData item settings.timelineColumn
  if timelineData.from_ = none ∧ timelineData.to_ = none then none
  else
    let mirrorData := extractMirrorData item mappings
    some
      { id := item.id
        name := item.name
        startDate := timelineData.from_
        endDate := timelineData.to_
        progress := extractProgress item
        color := extractColor item settings.colorByColumn mirrorData
        group := extractGroup item settings.groupByColumn mirrorData
        boardId := board.id
        boardName := board.name
        parentId := parentId
        originalItem := item
        mirrorData := mirrorData }

/-! ## Comparator (`DataProcessor.sortTasks`)

`sortTasks` sorts with `tasks.sort((a, b) => ...)`; the comparator body
is modelled here.  "Sorting orders `a` strictly before `b`" means the
comparator returns a negative number on `(a, b)`. -/

/-- A dynamically typed comparison operand inside the comparator. -/
inductive JSVal where
  | vstr (s : String)
  | vnum (n : Option Int)
  | vdate (d : JSDate)
  | vnull
deriving DecidableEq, Repr

/-- `aColumn?.text || ''`. -/
def columnTextOr (c : Option MondayColumnValue) : String :=
  match c with
  | some cv => cv.text
  | none => ""

/-- `aColumn.value || '0'`: a null or empty payload is replaced by the
numeral `'0'` before parsing. -/
def columnValueOr0 (c : Option MondayColumnValue) : Jsonish :=
  match c with
  | some cv =>
    match cv.value with
    | some v => if truthyValue (some v) then v else .json (.scalar (.snum 0))
    | none => .json (.scalar (.snum 0))
  | none => .json (.scalar (.snum 0))

/-- Key-value extraction of the comparator, before null substitution:
`name`, `start_date` and `end_date` read task fields; any other key reads
the originating item's column (as display text, or as parsed numbers when
the first task's column is `numeric`/`rating`; a `JSON.parse` failure on
either side sets both to `0`). -/
def rawKeyValues (sortByColumn : String) (a b : GanttTask) : JSVal × JSVal :=
  if sortByColumn == "name" then (.vstr a.name, .vstr b.name)
  else if sortByColumn == "start_date" then
    (match a.startDate with | some d => .vdate d | none => .vnull,
     match b.startDate with | some d => .vdate d | none => .vnull)
  else if sortByColumn == "end_date" then
    (match a.endDate with | some d => .vdate d | none => .vnull,
     match b.endDate with | some d => .vdate d | none => .vnull)
  else
    let aColumn := a.originalItem.column_values.find? (fun cv => cv.id == sortByColumn)
    let bColumn := b.originalItem.column_values.find? (fun cv => cv.id == sortByColumn)
    let isNumericKey : Bool :=
      match aColumn with
      | some c => c.type == "numeric" || c.type == "rating"
      | none => false
    if isNumericKey then
      match jsonParse (columnValueOr0 aColumn), jsonParse (columnValueOr0 bColumn) with
      | some ja, some jb => (.vnum (parseFloatJson ja), .vnum (parseFloatJson jb))
      | _, _ => (.vnum (some 0), .vnum (some 0))
    else (.vstr (columnTextOr aColumn), .vstr (columnTextOr bColumn))

/-- Null substitution: a null/undefined operand becomes `''` under `asc`
and `'zzz'` under `desc`. -/
def substNull (dir : SortDir) (v : JSVal) : JSVal :=
  match v with
  | .vnull => .vstr (match dir with | .asc => "" | .desc => "zzz")
  | v => v

/-- Model of `String(v)` for a comparison operand. -/
def jsValToString : JSVal → String
  | .vstr s => s
  | .vnum (some n) => toString n
  | .vnum none => "NaN"
  | .vdate d => dateToString d
  | .vnull => "null"

/-- The comparison cascade of the comparator: date pairs compare by
timestamp difference, number pairs by difference (a `NaN` comparison
result is treated as a tie, as `Array.prototype.sort` does), everything
else as lowercased strings via `localeCompare`. -/
def jsCompare (dir : SortDir) (av bv : JSVal) : Int :=
  match av, bv with
  | .vdate d1, .vdate d2 =>
    match d1, d2 with
    | some t1, some t2 => (match dir with | .asc => t1 - t2 | .desc => t2 - t1)
    | _, _ => 0
  | .vnum n1, .vnum n2 =>
    match n1, n2 with
    | some x1, some x2 => (match dir with | .asc => x1 - x2 | .desc => x2 - x1)
    | _, _ => 0
  | av, bv =>
    let aStr := toLowerStr (jsValToString av)
    let bStr := toLowerStr (jsValToString bv)
    match dir with
    | .asc => strCompare aStr bStr
    | .desc => strCompare bStr aStr

/-- The full comparator of `sortTasks(tasks, sortByColumn, direction)`. -/
def sortCompare (sortByColumn : String) (dir : SortDir) (a b : GanttTask) : Int :=
  let raw := rawKeyValues sortByColumn a b
  jsCompare dir (substNull dir raw.1) (substNull dir raw.2)

/-! ## Timeline Layout Engine (`GanttChart.tsx`) -/

/-- `tasks.filter(task => task.startDate && task.endDate)`: tasks whose
two date fields are non-null (an Invalid Date object is truthy). -/
def validTasks (tasks : List GanttTask) : List GanttTask :=
  tasks.filter (fun t => t.startDate.isSome && t.endDate.isSome)

/-- The date-collection `reduce`: push each non-null start and end date,
in task order. -/
def collectDates (tasks : List GanttTask) : List JSDate :=
  tasks.flatMap (fun t =>
    (match t.startDate with | some d => [d] | none => []) ++
    (match t.endDate with | some d => [d] | none => []))

/-- `Math.min(...dates.map(d => d.getTime()))` over a list of dates:
`none` models the `NaN`/`Infinity` outcomes (an invalid date present, or
an empty list). -/
def minTime (dates : List JSDate) : Option Int :=
  match dates.mapM id with
  | some (t :: ts) => some (ts.foldl min t)
  | _ => none

/-- `Math.max(...dates.map(d => d.getTime()))` over a list of dates. -/
def maxTime (dates : List JSDate) : Option Int :=
  match dates.mapM id with
  | some (t :: ts) => some (ts.foldl max t)
  | _ => none

/-- The computed layout header: the padded date range (`null` when no
task has both dates) and the pixel-per-day scale. -/
structure LayoutWindow where
  dateRange : Option (Int × Int)
  dayWidth : ℚ
deriving DecidableEq, Repr

/-- The `useMemo` window computation of `GanttChart`: filter to valid
tasks; with none, no date range and a 30px day width; otherwise pad the
min/max collected dates by 7 days each side and scale
`max(20, max(800, viewportWidth - 350) / totalDays)`.  Windows whose
dates include an Invalid Date (`NaN` arithmetic throughout in the
source) are modelled as having no date range. -/
def computeWindow (tasks : List GanttTask) (viewportWidth : ℚ) : LayoutWindow :=
  let vts := validTasks tasks
  if vts.isEmpty then ⟨none, 30⟩
  else
    let dates := collectDates vts
    match minTime dates, maxTime dates with
    | some mn, some mx =>
      let paddedMin := mn - 7
      let paddedMax := mx + 7
      let totalDays : Int := paddedMax - paddedMin
      let availableWidth : ℚ := max 800 (viewportWidth - 350)
      let dayWidth : ℚ := max 20 (availableWidth / (totalDays : ℚ))
      ⟨some (paddedMin, paddedMax), dayWidth⟩
    | _, _ => ⟨none, 30⟩

/-! ## Hierarchy Composer (`GanttChart.tsx`, `groupedTasks`) -/

/-- `task.group || 'No Group'`. -/
def groupKeyOf (t : GanttTask) : String :=
  if t.group ≠ "" then t.group else "No Group"

/-- Create the (possibly empty) bucket for a key if absent, preserving
insertion order of keys. -/
def ensureBucket (bs : List (String × List GanttTask)) (k : String) :
    List (String × List GanttTask) :=
  if bs.any (fun b => b.1 == k) then bs else bs ++ [(k, [])]

/-- Append a task to the bucket with the given key. -/
def pushToBucket (bs : List (String × List GanttTask)) (k : String) (t : GanttTask) :
    List (String × List GanttTask) :=
  bs.map (fun b => if b.1 == k then (b.1, b.2 ++ [t]) else b)

/-- One step of the first pass of `groupedTasks`: ensure the task's
group bucket exists, then either push the root task into its bucket or
collect the subtask into the orphan list. -/
def groupStep (st : List (String × List GanttTask) × List GanttTask)
    (t : GanttTask) : List (String × List GanttTask) × List GanttTask :=
  let k := groupKeyOf t
  let bs := ensureBucket st.1 k
  if t.parentId.isSome then (bs, st.2 ++ [t]) else (pushToBucket bs k t, st.2)

/-- The first pass of `groupedTasks`: ensure each task's group bucket
exists, then push root tasks into their bucket and collect subtasks into
the orphan list. -/
def groupPhase1 (vts : List GanttTask) :
    List (String × List GanttTask) × List GanttTask :=
  vts.foldl groupStep ([], [])

/-- `findIndex` of the parent followed by `splice(parentIndex + 1, 0, c)`:
insert `c` immediately after the first task whose id is `pid`; a list
without that id is returned unchanged. -/
def insertAfterFirst (pid : String) (c : GanttTask) : List GanttTask → List GanttTask
  | [] => []
  | t :: ts => if t.id == pid then t :: c :: ts else t :: insertAfterFirst pid c ts

/-- Insert one orphan into a single bucket's task list: splice after the
first task carrying the orphan's `parentId` (an orphan always has one;
`none` leaves the list unchanged). -/
def insOrphan (c : GanttTask) (l : List GanttTask) : List GanttTask :=
  match c.parentId with
  | some pid => insertAfterFirst pid c l
  | none => l

/-- Insert one orphan into every bucket that contains its parent
(`orphans.forEach` body: the splice runs over all group buckets). -/
def spliceOrphan (bs : List (String × List GanttTask)) (c : GanttTask) :
    List (String × List GanttTask) :=
  bs.map (fun b => (b.1, insOrphan c b.2))

/-- `groupedTasks` over an already-filtered valid task list: group the
roots, then splice each orphan after its parent. -/
def groupedTasks (vts : List GanttTask) : List (String × List GanttTask) :=
  let st := groupPhase1 vts
  st.2.foldl spliceOrphan st.1

/-- The grouped output of the chart for a raw task list (the component
filters to valid tasks before grouping). -/
def groupedTasksOf (tasks : List GanttTask) : List (String × List GanttTask) :=
  groupedTasks (validTasks tasks)

/-! ## Bar layout and drag gestures (`GanttBar.tsx`) -/

/-- The bar width: `duration = taskEnd.diff(taskStart, 'days') + 1` and
`width = Math.max(dayWidth * duration, dayWidth * 0.5)`, for a task whose
two dates are set and valid (`none` when a date is missing — the
component returns `null` — or invalid, where the source arithmetic is
`NaN`). -/
def ganttBarWidth (dayWidth : ℚ) (t : GanttTask) : Option ℚ :=
  match t.startDate, t.endDate with
  | some (some s), some (some e) =>
    some (max (dayWidth * ((e - s + 1 : Int) : ℚ)) (dayWidth * (1 / 2)))
  | _, _ => none

/-- The three drag kinds of `handleMouseDown`. -/
inductive DragType where
  | move
  | resizeLeft
  | resizeRight
deriving DecidableEq, Repr

/-- One movement sample of the drag state machine: derive the candidate
range from the anchor range and `deltaDays`; `resize-left` clamps the new
start at the (unchanged) end, `resize-right` clamps the new end at the
(unchanged) start. -/
def dragUpdate (type : DragType) (anchorStart anchorEnd deltaDays : Int) : Int × Int :=
  match type with
  | .move => (anchorStart + deltaDays, anchorEnd + deltaDays)
  | .resizeLeft =>
    let newStart := anchorStart + deltaDays
    (if anchorEnd < newStart then anchorEnd else newStart, anchorEnd)
  | .resizeRight =>
    let newEnd := anchorEnd + deltaDays
    (anchorStart, if newEnd < anchorStart then anchorStart else newEnd)

/-! ## Shared sample data for witnesses -/

/-- A minimal sample board. -/
def sampleBoard : MondayBoard := ⟨"b1", "Board 1", none, "public", [], []⟩

/-- Default settings: no explicit configuration. -/
def sampleSettings : GanttSettings := ⟨none, none, none, none, false, none, [], []⟩

/-- A sample item with a timeline column holding a start date and a null
end date. -/
def sampleItemHalf : MondayItem :=
  ⟨"i1", "Item 1",
    [⟨"tl", "Timeline", "timeline",
      some (.json (.jobj [("from", .sstr "2024-01-10"), ("to", .snull)])), "Jan 10"⟩],
    none⟩

/-- A sample item whose timeline payload decodes to two nulls. -/
def sampleItemNoDates : MondayItem :=
  ⟨"i2", "Item 2",
    [⟨"tl", "Timeline", "timeline",
      some (.json (.jobj [("from", .snull), ("to", .snull)])), ""⟩],
    none⟩

/-- A fallback task value. -/
def sampleFallbackTask : GanttTask :=
  ⟨"", "", none, none, some 0, "", "", "", "", none, ⟨"", "", [], none⟩, []⟩

/-- A fully-dated sample task. -/
def sampleTask (id : String) (pid : Option String) (g : String) (s e : Int) : GanttTask :=
  ⟨id, "Task " ++ id, some (some s), some (some e), some 0, defaultColor, g,
    "b1", "Board 1", pid, ⟨"oi" ++ id, "Item " ++ id, [], none⟩, []⟩

/-! ## C4: drag-gesture range invariants -/

/-- C4: for every drag movement sample on an anchor range with
`start ≤ end`, a `move` gesture shifts both endpoints by `deltaDays`
(preserving the duration), a `resize-left` (resize-start) gesture keeps
the end fixed and never lets the emitted start exceed it, a
`resize-right` (resize-end) gesture keeps the start fixed and never lets
the emitted end precede it, and every emitted candidate range satisfies
`start ≤ end`. -/
theorem dragUpdate_range_invariants (s e d : Int) (h : s ≤ e) :
    (dragUpdate .move s e d = (s + d, e + d) ∧
      (dragUpdate .move s e d).2 - (dragUpdate .move s e d).1 = e - s) ∧
    ((dragUpdate .resizeLeft s e d).2 = e ∧ (dragUpdate .resizeLeft s e d).1 ≤ e) ∧
    ((dragUpdate .resizeRight s e d).1 = s ∧ s ≤ (dragUpdate .resizeRight s e d).2) ∧
    (∀ ty : DragType, (dragUpdate ty s e d).1 ≤ (dragUpdate ty s e d).2) := by
  refine ⟨⟨rfl, by simp [dragUpdate]⟩, ⟨rfl, ?_⟩, ⟨rfl, ?_⟩, ?_⟩
  · simp only [dragUpdate]
    split <;> omega
  · simp only [dragUpdate]
    split <;> omega
  · intro ty
    cases ty
    · simp only [dragUpdate]; omega
    · simp only [dragUpdate]; split <;> omega
    · simp only [dragUpdate]; split <;> omega

/-- Witness for C4 at the clamping scenario of the spec: a resize-start
drag by a delta exceeding the duration clamps the new start to the
unchanged end. -/
theorem dragUpdate_range_invariants_witness :
    (dragUpdate .move 10 15 3 = (13, 18) ∧
      (dragUpdate .move 10 15 3).2 - (dragUpdate .move 10 15 3).1 = 15 - 10) ∧
    ((dragUpdate .resizeLeft 10 15 3).2 = 15 ∧
      (dragUpdate .resizeLeft 10 15 3).1 ≤ 15) ∧
    ((dragUpdate .resizeRight 10 15 3).1 = 10 ∧
      10 ≤ (dragUpdate .resizeRight 10 15 3).2) ∧
    (∀ ty : DragType, (dragUpdate ty 10 15 3).1 ≤ (dragUpdate ty 10 15 3).2) :=
  dragUpdate_range_invariants 10 15 3 (by decide)

/-! ## C7: bar width is monotone in duration and floored at half a day -/

/-- C7: for tasks with both dates set and any positive `pixelsPerDay`,
the bar width is `max(pixelsPerDay * durationDays, pixelsPerDay * 0.5)`
with `durationDays = daysBetween(start, end) + 1`; it is monotone
non-decreasing in the duration and never below `pixelsPerDay * 0.5`. -/
theorem ganttBarWidth_monotone_and_floored (dw : ℚ) (hdw : 0 < dw)
    (t1 t2 : GanttTask) (s1 e1 s2 e2 : Int)
    (h1s : t1.startDate = some (some s1)) (h1e : t1.endDate = some (some e1))
    (h2s : t2.startDate = some (some s2)) (h2e : t2.endDate = some (some e2))
    (hdur : e1 - s1 ≤ e2 - s2) :
    ∃ w1 w2,
      ganttBarWidth dw t1 = some w1 ∧
      ganttBarWidth dw t2 = some w2 ∧
      w1 = max (dw * ((e1 - s1 + 1 : Int) : ℚ)) (dw * (1 / 2)) ∧
      dw * (1 / 2) ≤ w1 ∧ w1 ≤ w2 := by
  have w1eq : ganttBarWidth dw t1 =
      some (max (dw * ((e1 - s1 + 1 : Int) : ℚ)) (dw * (1 / 2))) := by
    simp only [ganttBarWidth, h1s, h1e]
  have w2eq : ganttBarWidth dw t2 =
      some (max (dw * ((e2 - s2 + 1 : Int) : ℚ)) (dw * (1 / 2))) := by
    simp only [ganttBarWidth, h2s, h2e]
  refine ⟨_, _, w1eq, w2eq, rfl, le_max_right _ _, ?_⟩
  have hc : ((e1 - s1 + 1 : Int) : ℚ) ≤ ((e2 - s2 + 1 : Int) : ℚ) := by
    exact_mod_cast by omega
  exact max_le_max (mul_le_mul_of_nonneg_left hc (le_of_lt hdw)) le_rfl

/-- Witness for C7: a one-day task against a three-day task at 30px per
day. -/
theorem ganttBarWidth_monotone_and_floored_witness :
    ∃ w1 w2,
      ganttBarWidth 30 (sampleTask "w1" none "G" 0 0) = some w1 ∧
      ganttBarWidth 30 (sampleTask "w2" none "G" 5 7) = some w2 ∧
      w1 = max ((30 : ℚ) * ((0 - 0 + 1 : Int) : ℚ)) (30 * (1 / 2)) ∧
      (30 : ℚ) * (1 / 2) ≤ w1 ∧ w1 ≤ w2 :=
  ganttBarWidth_monotone_and_floored 30 (by norm_num)
    (sampleTask "w1" none "G" 0 0) (sampleTask "w2" none "G" 5 7)
    0 0 5 7 rfl rfl rfl rfl (by decide)

/-! ## C5: progress extraction and clamping -/

/-- An item whose progress column payload decodes to the JSON string
`"abc"` — a truthy, non-numeric value. -/
def progressNaNItem : MondayItem :=
  ⟨"i5", "Item 5",
    [⟨"p", "Progress", "numeric", some (.json (.scalar (.sstr "abc"))), "abc"⟩],
    none⟩

/-- Counterexample to C5 as stated: on a payload decoding to the string
`"abc"`, the clamp `Math.max(0, Math.min(100, "abc"))` evaluates to
`NaN` (the string is truthy, so the `|| 0` fallback does not apply, and
`Math.min` coerces it to `NaN`), so `extractProgress` is *not* in
`[0, 100]` for this decodable payload. -/
theorem extractProgress_nan_counterexample :
    extractProgress progressNaNItem = none ∧
    ¬ ∃ n : Int, extractProgress progressNaNItem = some n ∧ 0 ≤ n ∧ n ≤ 100 := by
  have h0 : extractProgress progressNaNItem = none := by decide
  refine ⟨h0, ?_⟩
  rintro ⟨n, hn, -, -⟩
  rw [h0] at hn
  exact Option.noConfusion hn

/-- C5 amended: `extractProgress` selects the first numeric-typed column
whose title contains (case-insensitively) `progress`, `complete` or `%`;
whenever it returns a number that number is in `[0, 100]`; a payload
decoding to a JSON number is clamped into `[0, 100]`; an absent column,
an absent/empty payload and an unparsable payload all yield `0`.  (A
payload decoding to a truthy non-numeric JSON value yields `NaN`,
modelled as `none` — the one exit not in `[0, 100]`.) -/
theorem extractProgress_clamped (item : MondayItem) :
    (∀ n, extractProgress item = some n → 0 ≤ n ∧ n ≤ 100) ∧
    (∀ pc, item.column_values.find? isProgressColumn = some pc →
      (∀ k, pc.value = some (.json (.scalar (.snum k))) →
        extractProgress item = some (max 0 (min 100 k))) ∧
      (∀ s, pc.value = some (.malformed s) → extractProgress item = some 0) ∧
      (pc.value = none → extractProgress item = some 0)) ∧
    (item.column_values.find? isProgressColumn = none →
      extractProgress item = some 0) := by
  refine ⟨?_, ?_, ?_⟩
  · intro n hn
    unfold extractProgress at hn
    repeat' split at hn
    all_goals try exact Option.noConfusion hn
    all_goals injection hn with h
    all_goals
      first
        | exact h ▸ ⟨le_max_left _ _, max_le (by norm_num) (min_le_left _ _)⟩
        | exact h ▸ ⟨le_rfl, by norm_num⟩
  · intro pc hfind
    refine ⟨?_, ?_, ?_⟩
    · intro k hk
      by_cases hk0 : k = 0
      · subst hk0
        simp [extractProgress, hfind, hk, truthyValue, truthyJsonVal, truthyScalar]
      · simp [extractProgress, hfind, hk, truthyValue, truthyJsonVal, truthyScalar,
          hk0, toNumber]
    · intro hs hsv
      by_cases hse : hs = ""
      · subst hse
        simp [extractProgress, hfind, hsv, truthyValue]
      · simp [extractProgress, hfind, hsv, truthyValue, hse]
    · intro hnone
      simp [extractProgress, hfind, hnone, truthyValue]
  · intro hnone
    simp [extractProgress, hnone]

/-- The progress column of the C5 witness item. -/
def sampleProgressColumn : MondayColumnValue :=
  ⟨"p", "% Complete", "numeric", some (.json (.scalar (.snum 150))), "150"⟩

/-- The C5 witness item: a `% Complete` column holding `150`. -/
def sampleProgressItem : MondayItem := ⟨"i5w", "Item", [sampleProgressColumn], none⟩

/-- Witness for C5 at the spec scenario: a `% Complete` column holding
`150` clamps to `100`. -/
theorem extractProgress_clamped_witness :
    (∀ n, extractProgress sampleProgressItem = some n → 0 ≤ n ∧ n ≤ 100) ∧
    extractProgress sampleProgressItem = some (max 0 (min 100 150)) :=
  ⟨(extractProgress_clamped sampleProgressItem).1,
    ((extractProgress_clamped sampleProgressItem).2.1 sampleProgressColumn
      (by decide)).1 150 rfl⟩

/-! ## C1: timeline endpoints pass through; both-null items are dropped -/

/-- C1: for every item, the task builder produces no task exactly when
the extracted timeline range has both endpoints null, and any produced
task carries exactly the extracted endpoints (no ghost-filling of a null
side). -/
theorem convertItem_timeline_passthrough (mappings : List MirrorColumnMapping)
    (item : MondayItem) (board : MondayBoard) (settings : GanttSettings)
    (parentId : Option String) :
    (convertItemToGanttTask mappings item board settings parentId = none ↔
      ((extractTimelineData item settings.timelineColumn).from_ = none ∧
       (extractTimelineData item settings.timelineColumn).to_ = none)) ∧
    (∀ t, convertItemToGanttTask mappings item board settings parentId = some t →
      t.startDate = (extractTimelineData item settings.timelineColumn).from_ ∧
      t.endDate = (extractTimelineData item settings.timelineColumn).to_) := by
  constructor
  · unfold convertItemToGanttTask
    dsimp only
    split
    · simp_all
    · simp_all
  · intro t ht
    unfold convertItemToGanttTask at ht
    dsimp only at ht
    split at ht
    · exact Option.noConfusion ht
    · injection ht with ht
      subst ht
      exact ⟨rfl, rfl⟩

/-- Witness for C1: an item with a half-null timeline produces a task
with exactly the extracted endpoints, and an item decoding to two nulls
produces no task. -/
theorem convertItem_timeline_passthrough_witness :
    (convertItemToGanttTask [] sampleItemNoDates sampleBoard sampleSettings none =
      none) ∧
    ((Option.getD
        (convertItemToGanttTask [] sampleItemHalf sampleBoard sampleSettings none)
        sampleFallbackTask).startDate =
      (extractTimelineData sampleItemHalf sampleSettings.timelineColumn).from_ ∧
     (Option.getD
        (convertItemToGanttTask [] sampleItemHalf sampleBoard sampleSettings none)
        sampleFallbackTask).endDate =
      (extractTimelineData sampleItemHalf sampleSettings.timelineColumn).to_) :=
  ⟨(convertItem_timeline_passthrough [] sampleItemNoDates sampleBoard sampleSettings
      none).1.mpr (by decide),
   (convertItem_timeline_passthrough [] sampleItemHalf sampleBoard sampleSettings
      none).2 _ (by decide)⟩

/-! ## C9: mirror entries are never dropped; decode-failure fallback -/

theorem mirrorLookup_upsert_self (l : List (String × MirrorDatum)) (k : String)
    (v : MirrorDatum) : mirrorLookup (mirrorUpsert l k v) k = some v := by
  unfold mirrorUpsert
  by_cases hany : l.any (fun p => p.1 == k) = true
  · rw [if_pos hany]
    unfold mirrorLookup
    rw [List.find?_map]
    have hpred : ((fun p : String × MirrorDatum => p.1 == k) ∘
        (fun p => if p.1 == k then (k, v) else p)) = fun p => p.1 == k := by
      funext q
      by_cases hq : q.1 = k <;> simp [hq]
    rw [hpred]
    rcases hfound : l.find? (fun p => p.1 == k) with - | q
    · rw [List.find?_eq_none] at hfound
      rw [List.any_eq_true] at hany
      obtain ⟨x, hx, hpx⟩ := hany
      exact absurd hpx (hfound x hx)
    · have hq := List.find?_some hfound
      simp only [beq_iff_eq] at hq
      rw [hfound]
      simp [hq]
  · rw [if_neg hany]
    unfold mirrorLookup
    rw [List.find?_append]
    have h1 : l.find? (fun p => p.1 == k) = none := by
      rw [List.find?_eq_none]
      intro x hx hcon
      exact hany (List.any_eq_true.mpr ⟨x, hx, hcon⟩)
    simp [h1]

theorem mirrorLookup_upsert_other (l : List (String × MirrorDatum)) (k k' : String)
    (v : MirrorDatum) (hne : k' ≠ k) :
    mirrorLookup (mirrorUpsert l k' v) k = mirrorLookup l k := by
  unfold mirrorUpsert
  by_cases hany : l.any (fun p => p.1 == k') = true
  · rw [if_pos hany]
    unfold mirrorLookup
    rw [List.find?_map]
    have hpred : ((fun p : String × MirrorDatum => p.1 == k) ∘
        (fun p => if p.1 == k' then (k', v) else p)) = fun p => p.1 == k := by
      funext q
      by_cases hq : q.1 = k' <;> simp [hq, hne]
    rw [hpred]
    rcases hfound : l.find? (fun p => p.1 == k) with - | q
    · rw [hfound]
      rfl
    · have hq := List.find?_some hfound
      simp only [beq_iff_eq] at hq
      have hq' : q.1 ≠ k' := fun hcon => hne (by rw [← hcon, hq])
      rw [hfound]
      simp [hq']
  · rw [if_neg hany]
    unfold mirrorLookup
    rw [List.find?_append]
    have h2 : [(k', v)].find? (fun p => p.1 == k) = none := by
      simp [hne]
    simp [h2]

theorem mirrorFold_preserves_other (item : MondayItem) (k : String) :
    ∀ (ms : List MirrorColumnMapping) (acc : List (String × MirrorDatum)),
    (∀ m ∈ ms, m.mirrorColumnId ≠ k) →
    mirrorLookup (ms.foldl (mirrorStep item) acc) k = mirrorLookup acc k := by
  intro ms
  induction ms with
  | nil => intro acc _; rfl
  | cons m ms' ih =>
    intro acc hne
    rw [List.foldl_cons]
    rw [ih (mirrorStep item acc m) (fun x hx => hne x (List.mem_cons_of_mem m hx))]
    unfold mirrorStep
    rcases hfind : item.column_values.find? (fun cv => cv.id == m.mirrorColumnId) with
      - | mc
    · rw [hfind]
    · rw [hfind]
      dsimp only
      by_cases htv : truthyValue mc.value = true
      · rw [if_pos htv]
        exact mirrorLookup_upsert_other acc k m.mirrorColumnId _
          (hne m (List.mem_cons_self m ms'))
      · rw [if_neg htv]

theorem mirrorFold_entry (item : MondayItem) (m : MirrorColumnMapping)
    (mc : MondayColumnValue)
    (hmc : item.column_values.find? (fun cv => cv.id == m.mirrorColumnId) = some mc)
    (htv : truthyValue mc.value = true) :
    ∀ (ms : List MirrorColumnMapping) (acc : List (String × MirrorDatum)),
    m ∈ ms → (ms.map MirrorColumnMapping.mirrorColumnId).Nodup →
    mirrorLookup (ms.foldl (mirrorStep item) acc) m.mirrorColumnId =
      some ⟨mc.text, mirrorRawOf mc.value, m.sourceColumnTitle,
        m.sourceBoardName, mc.type⟩ := by
  intro ms
  induction ms with
  | nil => intro acc hm _; exact absurd hm (List.not_mem_nil m)
  | cons m' ms' ih =>
    intro acc hm hnodup
    rw [List.map_cons, List.nodup_cons] at hnodup
    rcases List.mem_cons.mp hm with heq | hmem
    · subst heq
      rw [List.foldl_cons]
      have hrest : ∀ x ∈ ms', x.mirrorColumnId ≠ m.mirrorColumnId := by
        intro x hx hcon
        exact hnodup.1 (hcon ▸ List.mem_map_of_mem MirrorColumnMapping.mirrorColumnId hx)
      rw [mirrorFold_preserves_other item m.mirrorColumnId ms' _ hrest]
      unfold mirrorStep
      rw [hmc]
      dsimp only
      rw [if_pos htv]
      exact mirrorLookup_upsert_self _ _ _
    · exact ih (mirrorStep item acc m') hmem hnodup.2

/-- C9 amended: for every mapping whose mirror field has a truthy value
on the item (mapping keys distinct), `extractMirrorData` produces an
entry for that mapping — the entry is never dropped; its display value is
the field's precomputed display text in every case, and on decode failure
its raw value is the *raw undecoded payload string* (not the display
text, as the original claim stated; on decode success it is the decoded
payload). -/
theorem extractMirrorData_never_drops (item : MondayItem)
    (mappings : List MirrorColumnMapping) (m : MirrorColumnMapping)
    (hm : m ∈ mappings)
    (hnodup : (mappings.map MirrorColumnMapping.mirrorColumnId).Nodup)
    (mc : MondayColumnValue)
    (hmc : item.column_values.find? (fun cv => cv.id == m.mirrorColumnId) = some mc)
    (htv : truthyValue mc.value = true) :
    ∃ d, mirrorLookup (extractMirrorData item mappings) m.mirrorColumnId = some d ∧
      d.displayValue = mc.text ∧
      d.sourceColumnTitle = m.sourceColumnTitle ∧
      d.sourceBoardName = m.sourceBoardName ∧
      d.type = mc.type ∧
      (∀ s, mc.value = some (.malformed s) → d.rawValue = .rawText s) ∧
      (∀ v, mc.value = some (.json v) → d.rawValue = .parsed v) := by
  refine ⟨⟨mc.text, mirrorRawOf mc.value, m.sourceColumnTitle, m.sourceBoardName,
    mc.type⟩, ?_, rfl, rfl, rfl, rfl, ?_, ?_⟩
  · exact mirrorFold_entry item m mc hmc htv mappings [] hm hnodup
  · intro s hs
    rw [hs]
    rfl
  · intro v hv
    rw [hv]
    rfl

/-- The mirror column of the C9 examples: display text `Hello`, raw
payload `not json` (on which `JSON.parse` throws). -/
def sampleMirrorColumn : MondayColumnValue :=
  ⟨"mc1", "Mirror", "mirror", some (.malformed "not json"), "Hello"⟩

/-- The item carrying the sample mirror column. -/
def sampleMirrorItem : MondayItem := ⟨"i9", "Item 9", [sampleMirrorColumn], none⟩

/-- The mapping resolving the sample mirror column. -/
def sampleMapping : MirrorColumnMapping :=
  ⟨"src1", "Source Col", "sb1", "Source Board", "mc1", "Mirror", "b1"⟩

/-- Counterexample to C9 as stated: on decode failure the stored raw
value is the raw payload string `not json`, not the display text
`Hello` — the raw value and the display value differ. -/
theorem extractMirrorData_rawValue_counterexample :
    mirrorLookup (extractMirrorData sampleMirrorItem [sampleMapping]) "mc1" =
      some ⟨"Hello", .rawText "not json", "Source Col", "Source Board", "mirror"⟩ ∧
    MirrorRawValue.rawText "not json" ≠ MirrorRawValue.rawText "Hello" := by
  exact ⟨by decide, by decide⟩

/-- Witness for C9 at the sample mirror column. -/
theorem extractMirrorData_never_drops_witness :
    ∃ d, mirrorLookup (extractMirrorData sampleMirrorItem [sampleMapping])
        sampleMapping.mirrorColumnId = some d ∧
      d.displayValue = sampleMirrorColumn.text ∧
      d.sourceColumnTitle = sampleMapping.sourceColumnTitle ∧
      d.sourceBoardName = sampleMapping.sourceBoardName ∧
      d.type = sampleMirrorColumn.type ∧
      (∀ s, sampleMirrorColumn.value = some (.malformed s) → d.rawValue = .rawText s) ∧
      (∀ v, sampleMirrorColumn.value = some (.json v) → d.rawValue = .parsed v) :=
  extractMirrorData_never_drops sampleMirrorItem [sampleMapping] sampleMapping
    (by decide) (by decide) sampleMirrorColumn (by decide) (by decide)

/-! ## C2 and C8: the comparator under `asc` and `desc` -/

theorem cmpChars_asc_neg : ∀ a b : List Char, cmpChars a b = -(cmpChars b a) := by
  intro a
  induction a with
  | nil => intro b; cases b <;> rfl
  | cons x xs ih =>
    intro b
    cases b with
    | nil => rfl
    | cons y ys =>
      by_cases h1 : x.toNat < y.toNat
      · have h2 : ¬ y.toNat < x.toNat := by omega
        simp [cmpChars, h1, h2]
      · by_cases h2 : y.toNat < x.toNat
        · simp [cmpChars, h1, h2]
        · simp [cmpChars, h1, h2, ih ys]

theorem jsCompare_asc_eq_neg_desc (av bv : JSVal) :
    jsCompare .asc av bv = -(jsCompare .desc av bv) := by
  have hstr : ∀ x y : String, strCompare x y = -(strCompare y x) :=
    fun x y => cmpChars_asc_neg x.data y.data
  cases av with
  | vdate d1 =>
    cases bv with
    | vdate d2 =>
      cases d1 <;> cases d2 <;> simp only [jsCompare]
      · omega
      · omega
      · omega
      · omega
    | vstr s => exact hstr _ _
    | vnum n => exact hstr _ _
    | vnull => exact hstr _ _
  | vnum n1 =>
    cases bv with
    | vnum n2 =>
      cases n1 <;> cases n2 <;> simp only [jsCompare]
      · omega
      · omega
      · omega
      · omega
    | vstr s => exact hstr _ _
    | vdate d => exact hstr _ _
    | vnull => exact hstr _ _
  | vstr s => cases bv <;> exact hstr _ _
  | vnull => cases bv <;> exact hstr _ _

theorem substNull_of_ne (dir : SortDir) {v : JSVal} (h : v ≠ .vnull) :
    substNull dir v = v := by
  cases v with
  | vnull => exact absurd rfl h
  | vstr s => rfl
  | vnum n => rfl
  | vdate d => rfl

/-- The two sort keys whose extracted value can be null: a date key with
a null task date. -/
def dateKeyNull (key : String) (t : GanttTask) : Prop :=
  (key = "start_date" ∧ t.startDate = none) ∨ (key = "end_date" ∧ t.endDate = none)

instance (key : String) (t : GanttTask) : Decidable (dateKeyNull key t) := by
  unfold dateKeyNull
  infer_instance

theorem rawKeyValues_name (a b : GanttTask) :
    rawKeyValues "name" a b = (.vstr a.name, .vstr b.name) := rfl

theorem rawKeyValues_start (a b : GanttTask) :
    rawKeyValues "start_date" a b =
      ((match a.startDate with | some d => JSVal.vdate d | none => JSVal.vnull),
       (match b.startDate with | some d => JSVal.vdate d | none => JSVal.vnull)) := rfl

theorem rawKeyValues_end (a b : GanttTask) :
    rawKeyValues "end_date" a b =
      ((match a.endDate with | some d => JSVal.vdate d | none => JSVal.vnull),
       (match b.endDate with | some d => JSVal.vdate d | none => JSVal.vnull)) := rfl

theorem rawKeyValues_ne_null (key : String) (a b : GanttTask)
    (ha : ¬ dateKeyNull key a) (hb : ¬ dateKeyNull key b) :
    (rawKeyValues key a b).1 ≠ .vnull ∧ (rawKeyValues key a b).2 ≠ .vnull := by
  by_cases h1 : key = "name"
  · subst h1
    rw [rawKeyValues_name]
    exact ⟨by simp, by simp⟩
  · by_cases h2 : key = "start_date"
    · subst h2
      rw [rawKeyValues_start]
      unfold dateKeyNull at ha hb
      push_neg at ha hb
      have has : a.startDate ≠ none := ha.1 rfl
      have hbs : b.startDate ≠ none := hb.1 rfl
      constructor
      · rcases hsd : a.startDate with - | d
        · exact absurd hsd has
        · simp
      · rcases hsd : b.startDate with - | d
        · exact absurd hsd hbs
        · simp
    · by_cases h3 : key = "end_date"
      · subst h3
        rw [rawKeyValues_end]
        unfold dateKeyNull at ha hb
        push_neg at ha hb
        have has : a.endDate ≠ none := ha.2 rfl
        have hbs : b.endDate ≠ none := hb.2 rfl
        constructor
        · rcases hsd : a.endDate with - | d
          · exact absurd hsd has
          · simp
        · rcases hsd : b.endDate with - | d
          · exact absurd hsd hbs
          · simp
      · unfold rawKeyValues
        rw [if_neg (by simp [h1]), if_neg (by simp [h2]), if_neg (by simp [h3])]
        dsimp only
        constructor
        · split
          · split <;> simp
          · simp
        · split
          · split <;> simp
          · simp

theorem head?_toLowerStr (s : String) :
    (toLowerStr s).data.head? = s.data.head?.map Char.toLower := by
  cases h : s.data <;> simp [toLowerStr, h]

theorem head?_append_str (w r : String) (c : Char) (h : w.data.head? = some c) :
    (w ++ r).data.head? = some c := by
  cases hw : w.data with
  | nil => rw [hw] at h; exact Option.noConfusion h
  | cons x xs =>
    rw [hw] at h
    rw [String.data_append, hw]
    simpa using h

theorem weekdayName_head (t : Int) :
    ∃ c, (weekdayName t).data.head? = some c ∧ (Char.toLower c).toNat < 'z'.toNat := by
  unfold weekdayName
  have h1 : 0 ≤ (t + 4) % 7 := Int.emod_nonneg _ (by norm_num)
  have h2 : (t + 4) % 7 < 7 := Int.emod_lt_of_pos _ (by norm_num)
  have hk : ((t + 4) % 7).toNat < 7 := by omega
  set k := ((t + 4) % 7).toNat with hkdef
  interval_cases k
  · exact ⟨'S', rfl, by decide⟩
  · exact ⟨'M', rfl, by decide⟩
  · exact ⟨'T', rfl, by decide⟩
  · exact ⟨'W', rfl, by decide⟩
  · exact ⟨'T', rfl, by decide⟩
  · exact ⟨'F', rfl, by decide⟩
  · exact ⟨'S', rfl, by decide⟩

theorem dateToString_lower_head (d : JSDate) :
    ∃ c, (toLowerStr (dateToString d)).data.head? = some c ∧ c.toNat < 'z'.toNat := by
  cases d with
  | none => exact ⟨'i', by decide, by decide⟩
  | some t =>
    obtain ⟨c, hc, hlt⟩ := weekdayName_head t
    refine ⟨Char.toLower c, ?_, hlt⟩
    rw [head?_toLowerStr]
    have hds : (dateToString (some t)).data.head? = some c :=
      head?_append_str _ _ _ (head?_append_str _ _ _ (head?_append_str _ _ _
        (head?_append_str _ _ _ (head?_append_str _ _ _ (head?_append_str _ _ _
          (head?_append_str _ _ _ hc))))))
    rw [hds]
    rfl

theorem cmpChars_nil_left {l : List Char} {c : Char} (h : l.head? = some c) :
    cmpChars [] l = -1 := by
  cases l with
  | nil => exact Option.noConfusion h
  | cons x xs => rfl

theorem cmpChars_nil_right {l : List Char} {c : Char} (h : l.head? = some c) :
    cmpChars l [] = 1 := by
  cases l with
  | nil => exact Option.noConfusion h
  | cons x xs => rfl

theorem cmpChars_lt_zzz {l : List Char} {c : Char} (h : l.head? = some c)
    (hlt : c.toNat < 'z'.toNat) : cmpChars l ('z' :: 'z' :: 'z' :: []) = -1 := by
  cases l with
  | nil => exact Option.noConfusion h
  | cons x xs =>
    simp only [List.head?_cons, Option.some.injEq] at h
    subst h
    simp only [cmpChars]
    rw [if_pos hlt]

theorem cmpChars_zzz_gt {l : List Char} {c : Char} (h : l.head? = some c)
    (hlt : c.toNat < 'z'.toNat) : cmpChars ('z' :: 'z' :: 'z' :: []) l = 1 := by
  cases l with
  | nil => exact Option.noConfusion h
  | cons x xs =>
    simp only [List.head?_cons, Option.some.injEq] at h
    subst h
    have h2 : ¬ 'z'.toNat < x.toNat := by omega
    simp only [cmpChars]
    rw [if_neg h2, if_pos hlt]

/-- A null operand against a date operand: the null side compares
strictly first under both directions. -/
theorem jsCompare_null_vs_date (db : JSDate) :
    jsCompare .asc (substNull .asc .vnull) (substNull .asc (.vdate db)) = -1 ∧
    jsCompare .desc (substNull .desc .vnull) (substNull .desc (.vdate db)) = -1 ∧
    jsCompare .asc (substNull .asc (.vdate db)) (substNull .asc .vnull) = 1 ∧
    jsCompare .desc (substNull .desc (.vdate db)) (substNull .desc .vnull) = 1 := by
  obtain ⟨c, hc, hlt⟩ := dateToString_lower_head db
  refine ⟨?_, ?_, ?_, ?_⟩
  · show strCompare (toLowerStr "") (toLowerStr (dateToString db)) = -1
    exact cmpChars_nil_left hc
  · show strCompare (toLowerStr (dateToString db)) (toLowerStr "zzz") = -1
    unfold strCompare
    rw [show (toLowerStr "zzz").data = 'z' :: 'z' :: 'z' :: [] from by decide]
    exact cmpChars_lt_zzz hc hlt
  · show strCompare (toLowerStr (dateToString db)) (toLowerStr "") = 1
    exact cmpChars_nil_right hc
  · show strCompare (toLowerStr "zzz") (toLowerStr (dateToString db)) = 1
    unfold strCompare
    rw [show (toLowerStr "zzz").data = 'z' :: 'z' :: 'z' :: [] from by decide]
    exact cmpChars_zzz_gt hc hlt

/-- C2 amended: for every sort key and pair of tasks, when neither key
value is null, `desc` strictly reverses every non-tied `asc` pair; but
when exactly one key value is null (possible only for the date keys), the
null side sorts strictly first under *both* directions — the pair is not
reversed, contradicting the original claim for null-valued pairs. -/
theorem sortCompare_desc_reverses_asc (key : String) (a b : GanttTask) :
    (¬ dateKeyNull key a → ¬ dateKeyNull key b →
      (sortCompare key .asc a b < 0 ↔ 0 < sortCompare key .desc a b)) ∧
    (dateKeyNull key a → ¬ dateKeyNull key b →
      sortCompare key .asc a b < 0 ∧ sortCompare key .desc a b < 0) := by
  constructor
  · intro ha hb
    have hne := rawKeyValues_ne_null key a b ha hb
    have e1a := substNull_of_ne .asc hne.1
    have e2a := substNull_of_ne .asc hne.2
    have e1d := substNull_of_ne .desc hne.1
    have e2d := substNull_of_ne .desc hne.2
    unfold sortCompare
    dsimp only
    rw [e1a, e2a, e1d, e2d, jsCompare_asc_eq_neg_desc]
    omega
  · intro ha hb
    rcases ha with ⟨hk, hnull⟩ | ⟨hk, hnull⟩
    · subst hk
      unfold dateKeyNull at hb
      push_neg at hb
      have hbs : b.startDate ≠ none := hb.1 rfl
      rcases hbd : b.startDate with - | db
      · exact absurd hbd hbs
      · have hraw : rawKeyValues "start_date" a b = (.vnull, .vdate db) := by
          rw [rawKeyValues_start, hnull, hbd]
        unfold sortCompare
        dsimp only
        rw [hraw]
        have h := jsCompare_null_vs_date db
        rw [h.1, h.2.1]
        omega
    · subst hk
      unfold dateKeyNull at hb
      push_neg at hb
      have hbs : b.endDate ≠ none := hb.2 rfl
      rcases hbd : b.endDate with - | db
      · exact absurd hbd hbs
      · have hraw : rawKeyValues "end_date" a b = (.vnull, .vdate db) := by
          rw [rawKeyValues_end, hnull, hbd]
        unfold sortCompare
        dsimp only
        rw [hraw]
        have h := jsCompare_null_vs_date db
        rw [h.1, h.2.1]
        omega

/-- A task with a null start date (and a present end date). -/
def taskNullStart : GanttTask :=
  ⟨"a2", "Task a2", none, some (some 1), some 0, defaultColor, "G", "b1",
    "Board 1", none, ⟨"oia2", "Item a2", [], none⟩, []⟩

/-- A task whose start date is the epoch. -/
def taskEpochStart : GanttTask :=
  ⟨"b2", "Task b2", some (some 0), some (some 1), some 0, defaultColor, "G", "b1",
    "Board 1", none, ⟨"oib2", "Item b2", [], none⟩, []⟩

/-- Counterexample to C2 as stated: under the `start_date` key, the task
with a null start sorts strictly before the dated task under `asc`
(`'' < 'thu jan 01 1970 ...'`) *and* under `desc`
(`'thu jan 01 1970 ...' < 'zzz'`), so `desc` does not reverse this
non-tied pair. -/
theorem sortCompare_null_pair_counterexample :
    sortCompare "start_date" .asc taskNullStart taskEpochStart < 0 ∧
    ¬ 0 < sortCompare "start_date" .desc taskNullStart taskEpochStart := by
  refine ⟨?_, ?_⟩
  · have : sortCompare "start_date" .asc taskNullStart taskEpochStart = -1 := by decide
    omega
  · have : sortCompare "start_date" .desc taskNullStart taskEpochStart = -1 := by decide
    omega

/-- Witness for C2: a reversed non-null pair under the `name` key, and a
null-start pair sorting first under both directions. -/
theorem sortCompare_desc_reverses_asc_witness :
    ((sortCompare "name" .asc taskNullStart taskEpochStart < 0 ↔
      0 < sortCompare "name" .desc taskNullStart taskEpochStart)) ∧
    (sortCompare "start_date" .asc taskNullStart taskEpochStart < 0 ∧
      sortCompare "start_date" .desc taskNullStart taskEpochStart < 0) :=
  ⟨(sortCompare_desc_reverses_asc "name" taskNullStart taskEpochStart).1
      (by decide) (by decide),
   (sortCompare_desc_reverses_asc "start_date" taskNullStart taskEpochStart).2
      (by decide) (by decide)⟩

/-- C8 amended: nulls sort to the *low* end of ascending order, not the
high end: under `asc`, for the date keys (the only keys that produce null
values), the task with the null value compares strictly *before* any task
with a present value, whichever side it is on. -/
theorem sortCompare_nulls_sort_low (key : String) (a b : GanttTask)
    (ha : dateKeyNull key a) (hb : ¬ dateKeyNull key b) :
    sortCompare key .asc a b < 0 ∧ 0 < sortCompare key .asc b a := by
  rcases ha with ⟨hk, hnull⟩ | ⟨hk, hnull⟩
  · subst hk
    unfold dateKeyNull at hb
    push_neg at hb
    have hbs : b.startDate ≠ none := hb.1 rfl
    rcases hbd : b.startDate with - | db
    · exact absurd hbd hbs
    · have hraw : rawKeyValues "start_date" a b = (.vnull, .vdate db) := by
        rw [rawKeyValues_start, hnull, hbd]
      have hraw' : rawKeyValues "start_date" b a = (.vdate db, .vnull) := by
        rw [rawKeyValues_start, hnull, hbd]
      unfold sortCompare
      dsimp only
      rw [hraw, hraw']
      have h := jsCompare_null_vs_date db
      rw [h.1, h.2.2.1]
      omega
  · subst hk
    unfold dateKeyNull at hb
    push_neg at hb
    have hbs : b.endDate ≠ none := hb.2 rfl
    rcases hbd : b.endDate with - | db
    · exact absurd hbd hbs
    · have hraw : rawKeyValues "end_date" a b = (.vnull, .vdate db) := by
        rw [rawKeyValues_end, hnull, hbd]
      have hraw' : rawKeyValues "end_date" b a = (.vdate db, .vnull) := by
        rw [rawKeyValues_end, hnull, hbd]
      unfold sortCompare
      dsimp only
      rw [hraw, hraw']
      have h := jsCompare_null_vs_date db
      rw [h.1, h.2.2.1]
      omega

/-- A task with a null end date. -/
def taskNullEnd : GanttTask :=
  ⟨"a8", "Task a8", some (some 0), none, some 0, defaultColor, "G", "b1",
    "Board 1", none, ⟨"oia8", "Item a8", [], none⟩, []⟩

/-- A task whose end date is day 100. -/
def taskDatedEnd : GanttTask :=
  ⟨"b8", "Task b8", some (some 0), some (some 100), some 0, defaultColor, "G", "b1",
    "Board 1", none, ⟨"oib8", "Item b8", [], none⟩, []⟩

/-- Counterexample to C8 as stated: under ascending `end_date` order the
null-valued task sorts strictly *before* the dated task (the `''`
substitute compares below every date string), not after it. -/
theorem sortCompare_nulls_high_counterexample :
    ¬ 0 < sortCompare "end_date" .asc taskNullEnd taskDatedEnd ∧
    sortCompare "end_date" .asc taskNullEnd taskDatedEnd < 0 := by
  have : sortCompare "end_date" .asc taskNullEnd taskDatedEnd = -1 := by decide
  omega

/-- Witness for C8 at the concrete null-end pair. -/
theorem sortCompare_nulls_sort_low_witness :
    sortCompare "end_date" .asc taskNullEnd taskDatedEnd < 0 ∧
    0 < sortCompare "end_date" .asc taskDatedEnd taskNullEnd :=
  sortCompare_nulls_sort_low "end_date" taskNullEnd taskDatedEnd
    (by decide) (by decide)

/-! ## C6: the padded window over collected dates -/

theorem foldl_min_le_init : ∀ (l : List Int) (a : Int), l.foldl min a ≤ a
  | [], a => le_refl a
  | x :: xs, a => le_trans (foldl_min_le_init xs (min a x)) (min_le_left a x)

theorem foldl_min_le_mem : ∀ (l : List Int) (a x : Int), x ∈ l → l.foldl min a ≤ x
  | [], _, x, h => absurd h (List.not_mem_nil x)
  | x' :: xs, a, x, h => by
    rcases List.mem_cons.mp h with heq | hmem
    · subst heq
      exact le_trans (foldl_min_le_init xs (min a x)) (min_le_right a x)
    · exact foldl_min_le_mem xs (min a x') x hmem

theorem foldl_min_mem : ∀ (l : List Int) (a : Int), l.foldl min a = a ∨ l.foldl min a ∈ l
  | [], _ => Or.inl rfl
  | x :: xs, a => by
    rcases foldl_min_mem xs (min a x) with h | h
    · rw [List.foldl_cons]
      rcases le_total a x with hax | hxa
      · left
        rw [h, min_eq_left hax]
      · right
        rw [h, min_eq_right hxa]
        exact List.mem_cons_self x xs
    · right
      rw [List.foldl_cons]
      exact List.mem_cons_of_mem x h

theorem foldl_max_ge_init : ∀ (l : List Int) (a : Int), a ≤ l.foldl max a
  | [], a => le_refl a
  | x :: xs, a => le_trans (le_max_left a x) (foldl_max_ge_init xs (max a x))

theorem foldl_max_ge_mem : ∀ (l : List Int) (a x : Int), x ∈ l → x ≤ l.foldl max a
  | [], _, x, h => absurd h (List.not_mem_nil x)
  | x' :: xs, a, x, h => by
    rcases List.mem_cons.mp h with heq | hmem
    · subst heq
      exact le_trans (le_max_right a x) (foldl_max_ge_init xs (max a x))
    · exact foldl_max_ge_mem xs (max a x') x hmem

theorem foldl_max_mem : ∀ (l : List Int) (a : Int), l.foldl max a = a ∨ l.foldl max a ∈ l
  | [], _ => Or.inl rfl
  | x :: xs, a => by
    rcases foldl_max_mem xs (max a x) with h | h
    · rw [List.foldl_cons]
      rcases le_total a x with hax | hxa
      · right
        rw [h, max_eq_right hax]
        exact List.mem_cons_self x xs
      · left
        rw [h, max_eq_left hxa]
    · right
      rw [List.foldl_cons]
      exact List.mem_cons_of_mem x h

theorem mapM_id_of_no_none :
    ∀ (l : List JSDate), (∀ x ∈ l, x ≠ none) →
    ∃ l', l.mapM id = some l' ∧ (∀ n : Int, some n ∈ l ↔ n ∈ l') ∧ (l = [] ↔ l' = [])
  | [], _ => ⟨[], rfl, by simp, by simp⟩
  | x :: xs, h => by
    rcases hx : x with - | n
    · exact absurd rfl (hx ▸ h x (List.mem_cons_self x xs))
    · subst hx
      obtain ⟨l', hm, hiff, hnil⟩ :=
        mapM_id_of_no_none xs (fun y hy => h y (List.mem_cons_of_mem _ hy))
      refine ⟨n :: l', ?_, ?_, by simp⟩
      · rw [List.mapM_cons, hm]
        rfl
      · intro k
        simp [hiff]

theorem mem_collectDates (tasks : List GanttTask) (d : JSDate) :
    d ∈ collectDates tasks ↔
      ∃ t ∈ tasks, t.startDate = some d ∨ t.endDate = some d := by
  unfold collectDates
  rw [List.mem_flatMap]
  refine exists_congr fun t => and_congr_right fun _ => ?_
  rcases h1 : t.startDate with - | x <;> rcases h2 : t.endDate with - | y <;>
    simp [h1, h2, eq_comm]

/-- The spec scenario task: a task spanning 2024-03-01 .. 2024-03-03. -/
def scenarioTask : GanttTask :=
  sampleTask "s6" none "G" (daysFromCivil 2024 3 1) (daysFromCivil 2024 3 3)

/-- A task with a start date (2024-01-01) but a null end date. -/
def taskHalfDated : GanttTask :=
  ⟨"h6", "Task h6", some (some (daysFromCivil 2024 1 1)), none, some 0, defaultColor,
    "G", "b1", "Board 1", none, ⟨"oih6", "Item h6", [], none⟩, []⟩

/-- Counterexample to C6 as stated: `collectDates` over the *raw* task
list is the claim's "all non-null start/end dates across the tasks"; with
a half-dated task present (start 2024-01-01, end null), the computed
window starts at 2024-02-23 — the minimum over the *fully dated* tasks
minus 7 — and not at the claim's overall minimum 2024-01-01 minus 7. -/
theorem computeWindow_ignores_half_dated_counterexample :
    (computeWindow [scenarioTask, taskHalfDated] 1200).dateRange =
      some (daysFromCivil 2024 2 23, daysFromCivil 2024 3 10) ∧
    minTime (collectDates [scenarioTask, taskHalfDated]) =
      some (daysFromCivil 2024 1 1) ∧
    daysFromCivil 2024 2 23 ≠ daysFromCivil 2024 1 1 - 7 := by
  exact ⟨by decide, by decide, by decide⟩

/-- C6 amended: the window collects the start/end dates of the tasks
having *both* dates set (a half-dated task contributes nothing), and over
those tasks — all dates valid, at least one such task — it equals
`[min − 7, max + 7]`, with
`pixelsPerDay = max(20, max(800, viewportWidth − 350) / totalDays)`;
a single task spanning 2024-03-01..2024-03-03 yields the window
2024-02-23 .. 2024-03-10. -/
theorem computeWindow_padded_minmax (tasks : List GanttTask) (vw : ℚ)
    (t0 : GanttTask) (ht0 : t0 ∈ validTasks tasks)
    (hvalid : ∀ t ∈ validTasks tasks, t.startDate ≠ some none ∧ t.endDate ≠ some none) :
    (∃ s e : Int,
      (computeWindow tasks vw).dateRange = some (s, e) ∧
      (∀ t ∈ validTasks tasks, ∀ d : Int,
        (t.startDate = some (some d) ∨ t.endDate = some (some d)) →
        s + 7 ≤ d ∧ d ≤ e - 7) ∧
      (∃ t ∈ validTasks tasks,
        t.startDate = some (some (s + 7)) ∨ t.endDate = some (some (s + 7))) ∧
      (∃ t ∈ validTasks tasks,
        t.startDate = some (some (e - 7)) ∨ t.endDate = some (some (e - 7))) ∧
      (computeWindow tasks vw).dayWidth =
        max 20 (max 800 (vw - 350) / ((e - s : Int) : ℚ))) ∧
    (computeWindow [scenarioTask] 1200).dateRange =
      some (daysFromCivil 2024 2 23, daysFromCivil 2024 3 10) := by
  refine ⟨?_, by decide⟩
  have hnone : ∀ x ∈ collectDates (validTasks tasks), x ≠ none := by
    intro x hx
    obtain ⟨t, ht, hd⟩ := (mem_collectDates _ x).mp hx
    rcases hd with hd | hd
    · intro hcon
      exact (hvalid t ht).1 (hcon ▸ hd)
    · intro hcon
      exact (hvalid t ht).2 (hcon ▸ hd)
  obtain ⟨l', hmapm, hiff, hnil⟩ := mapM_id_of_no_none _ hnone
  have ht0s : t0.startDate.isSome := by
    have := List.mem_filter.mp ht0
    exact (Bool.and_eq_true _ _ |>.mp this.2).1
  obtain ⟨x0, hx0⟩ := Option.isSome_iff_exists.mp ht0s
  have hx0mem : x0 ∈ collectDates (validTasks tasks) :=
    (mem_collectDates _ x0).mpr ⟨t0, ht0, Or.inl hx0⟩
  have hlne : l' ≠ [] := by
    intro hcon
    rw [hnil.mpr hcon] at hx0mem
    exact List.not_mem_nil x0 hx0mem
  rcases hl' : l' with - | ⟨n, rest⟩
  · exact absurd hl' hlne
  subst hl'
  have hmin : minTime (collectDates (validTasks tasks)) = some (rest.foldl min n) := by
    unfold minTime
    rw [hmapm]
  have hmax : maxTime (collectDates (validTasks tasks)) = some (rest.foldl max n) := by
    unfold maxTime
    rw [hmapm]
  have hne : (validTasks tasks).isEmpty = false := by
    cases h : validTasks tasks with
    | nil => rw [h] at ht0; exact absurd ht0 (List.not_mem_nil t0)
    | cons a l => rfl
  refine ⟨rest.foldl min n - 7, rest.foldl max n + 7, ?_, ?_, ?_, ?_, ?_⟩
  · unfold computeWindow
    dsimp only
    rw [if_neg (show ¬ (validTasks tasks).isEmpty = true by simp [hne]), hmin, hmax]
  · intro t ht d hd
    have hmem : (some d : JSDate) ∈ collectDates (validTasks tasks) := by
      rcases hd with hd | hd
      · exact (mem_collectDates _ _).mpr ⟨t, ht, Or.inl hd⟩
      · exact (mem_collectDates _ _).mpr ⟨t, ht, Or.inr hd⟩
    have hdl : d ∈ n :: rest := (hiff d).mp hmem
    have h1 : rest.foldl min n ≤ d := by
      rcases List.mem_cons.mp hdl with h | h
      · rw [h]
        exact foldl_min_le_init rest n
      · exact foldl_min_le_mem rest n d h
    have h2 : d ≤ rest.foldl max n := by
      rcases List.mem_cons.mp hdl with h | h
      · rw [h]
        exact foldl_max_ge_init rest n
      · exact foldl_max_ge_mem rest n d h
    omega
  · have hmem : rest.foldl min n ∈ n :: rest := by
      rcases foldl_min_mem rest n with h | h
      · rw [h]
        exact List.mem_cons_self n rest
      · exact List.mem_cons_of_mem n h
    have : (some (rest.foldl min n) : JSDate) ∈ collectDates (validTasks tasks) :=
      (hiff _).mpr hmem
    obtain ⟨t, ht, hd⟩ := (mem_collectDates _ _).mp this
    refine ⟨t, ht, ?_⟩
    have harith : rest.foldl min n - 7 + 7 = rest.foldl min n := by omega
    rw [harith]
    exact hd
  · have hmem : rest.foldl max n ∈ n :: rest := by
      rcases foldl_max_mem rest n with h | h
      · rw [h]
        exact List.mem_cons_self n rest
      · exact List.mem_cons_of_mem n h
    have : (some (rest.foldl max n) : JSDate) ∈ collectDates (validTasks tasks) :=
      (hiff _).mpr hmem
    obtain ⟨t, ht, hd⟩ := (mem_collectDates _ _).mp this
    refine ⟨t, ht, ?_⟩
    have harith : rest.foldl max n + 7 - 7 = rest.foldl max n := by omega
    rw [harith]
    exact hd
  · unfold computeWindow
    dsimp only
    rw [if_neg (show ¬ (validTasks tasks).isEmpty = true by simp [hne]), hmin, hmax]

/-- Witness for C6 at the spec scenario input. -/
theorem computeWindow_padded_minmax_witness :
    (∃ s e : Int,
      (computeWindow [scenarioTask] 1200).dateRange = some (s, e) ∧
      (∀ t ∈ validTasks [scenarioTask], ∀ d : Int,
        (t.startDate = some (some d) ∨ t.endDate = some (some d)) →
        s + 7 ≤ d ∧ d ≤ e - 7) ∧
      (∃ t ∈ validTasks [scenarioTask],
        t.startDate = some (some (s + 7)) ∨ t.endDate = some (some (s + 7))) ∧
      (∃ t ∈ validTasks [scenarioTask],
        t.startDate = some (some (e - 7)) ∨ t.endDate = some (some (e - 7))) ∧
      (computeWindow [scenarioTask] 1200).dayWidth =
        max 20 (max 800 ((1200 : ℚ) - 350) / ((e - s : Int) : ℚ))) ∧
    (computeWindow [scenarioTask] 1200).dateRange =
      some (daysFromCivil 2024 2 23, daysFromCivil 2024 3 10) :=
  computeWindow_padded_minmax [scenarioTask] 1200 scenarioTask (by decide)
    (by decide)

/-! ## C3 and C10: hierarchy grouping -/

theorem mem_insertAfterFirst {pid : String} {c x : GanttTask} :
    ∀ {l : List GanttTask}, x ∈ insertAfterFirst pid c l → x ∈ l ∨ x = c := by
  intro l
  induction l with
  | nil => intro h; exact absurd h (List.not_mem_nil x)
  | cons y ys ih =>
    intro h
    unfold insertAfterFirst at h
    by_cases hy : (y.id == pid) = true
    · rw [if_pos hy] at h
      rcases List.mem_cons.mp h with h | h
      · exact Or.inl (h ▸ List.mem_cons_self y ys)
      · rcases List.mem_cons.mp h with h | h
        · exact Or.inr h
        · exact Or.inl (List.mem_cons_of_mem y h)
    · rw [if_neg hy] at h
      rcases List.mem_cons.mp h with h | h
      · exact Or.inl (h ▸ List.mem_cons_self y ys)
      · rcases ih h with h | h
        · exact Or.inl (List.mem_cons_of_mem y h)
        · exact Or.inr h

theorem mem_insOrphan {c x : GanttTask} {l : List GanttTask}
    (h : x ∈ insOrphan c l) : x ∈ l ∨ x = c := by
  unfold insOrphan at h
  rcases hp : c.parentId with - | pid
  · rw [hp] at h
    exact Or.inl h
  · rw [hp] at h
    exact mem_insertAfterFirst h

theorem insertAfterFirst_cons (pid : String) (c y : GanttTask) (ys : List GanttTask) :
    insertAfterFirst pid c (y :: ys) =
      if (y.id == pid) = true then y :: c :: ys
      else y :: insertAfterFirst pid c ys := rfl

theorem insertAfterFirst_append (pid : String) (c : GanttTask) :
    ∀ (xs ys : List GanttTask),
    insertAfterFirst pid c (xs ++ ys) =
      if xs.any (fun t => t.id == pid) then insertAfterFirst pid c xs ++ ys
      else xs ++ insertAfterFirst pid c ys := by
  intro xs
  induction xs with
  | nil => intro ys; simp
  | cons x xs' ih =>
    intro ys
    by_cases hx : (x.id == pid) = true
    · have h2 : (x :: xs').any (fun t => t.id == pid) = true := by
        rw [List.any_cons, hx, Bool.true_or]
      rw [List.cons_append, insertAfterFirst_cons, if_pos hx, if_pos h2,
        insertAfterFirst_cons, if_pos hx]
      rfl
    · have hxf : (x.id == pid) = false := by simpa using hx
      have h2 : (x :: xs').any (fun t => t.id == pid) = xs'.any (fun t => t.id == pid) := by
        rw [List.any_cons, hxf, Bool.false_or]
      rw [List.cons_append, insertAfterFirst_cons, if_neg hx, ih ys, h2]
      by_cases hxs : xs'.any (fun t => t.id == pid) = true
      · rw [if_pos hxs, if_pos hxs, insertAfterFirst_cons, if_neg hx]
        rfl
      · rw [if_neg hxs, if_neg hxs]
        rfl

theorem insertAfterFirst_no_match (pid : String) (c : GanttTask) :
    ∀ (l : List GanttTask), (∀ x ∈ l, x.id ≠ pid) → insertAfterFirst pid c l = l := by
  intro l
  induction l with
  | nil => intro _; rfl
  | cons x xs ih =>
    intro h
    unfold insertAfterFirst
    rw [if_neg (by simpa using h x (List.mem_cons_self x xs)),
      ih (fun y hy => h y (List.mem_cons_of_mem x hy))]

theorem foldl_spliceOrphan_eq_map (os : List GanttTask) :
    ∀ (bs : List (String × List GanttTask)),
    os.foldl spliceOrphan bs =
      bs.map (fun b => (b.1, os.foldl (fun l c => insOrphan c l) b.2)) := by
  induction os with
  | nil => intro bs; simp
  | cons c os' ih =>
    intro bs
    rw [List.foldl_cons, ih (spliceOrphan bs c)]
    unfold spliceOrphan
    rw [List.map_map]
    rfl

theorem mem_foldl_insOrphan {x : GanttTask} :
    ∀ (os : List GanttTask) (l : List GanttTask),
    x ∈ os.foldl (fun l c => insOrphan c l) l → x ∈ l ∨ x ∈ os := by
  intro os
  induction os with
  | nil => intro l h; exact Or.inl h
  | cons c os' ih =>
    intro l h
    rcases ih (insOrphan c l) h with h | h
    · rcases mem_insOrphan h with h | h
      · exact Or.inl h
      · exact Or.inr (h ▸ List.mem_cons_self c os')
    · exact Or.inr (List.mem_cons_of_mem c h)

/-- No task in the list carries the given id. -/
def NoId (pid : String) (l : List GanttTask) : Prop := ∀ x ∈ l, x.id ≠ pid

theorem splice_noid (pid : String) :
    ∀ (os : List GanttTask) (l : List GanttTask), NoId pid l →
    (∀ c ∈ os, c.id ≠ pid) →
    NoId pid (os.foldl (fun l c => insOrphan c l) l) := by
  intro os
  induction os with
  | nil => intro l hl _; exact hl
  | cons c os' ih =>
    intro l hl hos
    rw [List.foldl_cons]
    refine ih (insOrphan c l) ?_ (fun x hx => hos x (List.mem_cons_of_mem c hx))
    intro x hx
    rcases mem_insOrphan hx with h | h
    · exact hl x h
    · exact h ▸ hos c (List.mem_cons_self c os')

theorem any_eq_false_of_noid {pid : String} {l : List GanttTask} (h : NoId pid l) :
    l.any (fun t => t.id == pid) = false := by
  rw [List.any_eq_false]
  intro x hx
  simpa using h x hx

theorem splice_block (P : GanttTask) :
    ∀ (os : List GanttTask) (l A M B : List GanttTask),
    l = A ++ (P :: (M ++ B)) →
    NoId P.id A →
    (∀ x ∈ M, x.parentId = some P.id) →
    (∀ c ∈ os, c.id ≠ P.id) →
    (∀ c ∈ os, c.parentId.isSome) →
    (∀ c ∈ os, ∀ q, c.parentId = some q → q ≠ P.id →
      (∀ m, (m ∈ l ∨ m ∈ os) → m.parentId = some P.id → m.id ≠ q)) →
    ∃ A' M' B',
      os.foldl (fun l c => insOrphan c l) l = A' ++ (P :: (M' ++ B')) ∧
      NoId P.id A' ∧ (∀ x ∈ M', x.parentId = some P.id) ∧
      (∀ x ∈ M, x ∈ M') ∧
      (∀ c ∈ os, c.parentId = some P.id → c ∈ M') := by
  intro os
  induction os with
  | nil =>
    intro l A M B hl hA hM _ _ _
    exact ⟨A, M, B, hl, hA, hM, fun x hx => hx,
      fun c hc => absurd hc (List.not_mem_nil c)⟩
  | cons c os' ih =>
    intro l A M B hl hA hM hid hsome hq
    rw [List.foldl_cons]
    obtain ⟨q, hcq⟩ := Option.isSome_iff_exists.mp (hsome c (List.mem_cons_self c os'))
    have hcid : c.id ≠ P.id := hid c (List.mem_cons_self c os')
    have hos' : ∀ x ∈ os', x.id ≠ P.id := fun x hx => hid x (List.mem_cons_of_mem c hx)
    have hsome' : ∀ x ∈ os', x.parentId.isSome :=
      fun x hx => hsome x (List.mem_cons_of_mem c hx)
    have hq1 : ∀ c' ∈ os', ∀ q', c'.parentId = some q' → q' ≠ P.id →
        (∀ m, (m ∈ insOrphan c l ∨ m ∈ os') → m.parentId = some P.id → m.id ≠ q') := by
      intro c' hc' q' hcq' hq' m hm hmp
      refine hq c' (List.mem_cons_of_mem c hc') q' hcq' hq' m ?_ hmp
      rcases hm with hm | hm
      · rcases mem_insOrphan hm with hm | hm
        · exact Or.inl hm
        · exact Or.inr (hm ▸ List.mem_cons_self c os')
      · exact Or.inr (List.mem_cons_of_mem c hm)
    have hins : insOrphan c l = insertAfterFirst q c l := by
      unfold insOrphan
      rw [hcq]
    by_cases hqp : q = P.id
    · subst hqp
      have hAfalse : ¬ (A.any (fun t => t.id == P.id) = true) := by
        simp [any_eq_false_of_noid hA]
      have hPtrue : (P.id == P.id) = true := by simp
      have hl1 : insOrphan c l = A ++ (P :: ((c :: M) ++ B)) := by
        rw [hins, hl, insertAfterFirst_append, if_neg hAfalse, insertAfterFirst_cons,
          if_pos hPtrue, List.cons_append]
      obtain ⟨A', M', B', hfold, hA', hM', hsub, hchild⟩ :=
        ih (insOrphan c l) A (c :: M) B hl1 hA
          (by
            intro x hx
            rcases List.mem_cons.mp hx with h | h
            · exact h ▸ hcq
            · exact hM x h)
          hos' hsome' hq1
      refine ⟨A', M', B', hfold, hA', hM', ?_, ?_⟩
      · exact fun x hx => hsub x (List.mem_cons_of_mem c hx)
      · intro c' hc' hcp'
        rcases List.mem_cons.mp hc' with h | h
        · exact h ▸ hsub c (List.mem_cons_self c M)
        · exact hchild c' h hcp'
    · have hMq : ∀ m ∈ M, m.id ≠ q := by
        intro m hm
        have hml : m ∈ l := by
          rw [hl]
          exact List.mem_append_right A
            (List.mem_cons_of_mem P (List.mem_append_left B hm))
        exact hq c (List.mem_cons_self c os') q hcq hqp m (Or.inl hml) (hM m hm)
      have hcnotchild : ¬ c.parentId = some P.id := by
        rw [hcq]
        simpa using hqp
      by_cases hAq : A.any (fun t => t.id == q) = true
      · have hl1 : insOrphan c l = (insertAfterFirst q c A) ++ (P :: (M ++ B)) := by
          rw [hins, hl, insertAfterFirst_append, if_pos hAq]
        have hA1 : NoId P.id (insertAfterFirst q c A) := by
          intro x hx
          rcases mem_insertAfterFirst hx with h | h
          · exact hA x h
          · exact h ▸ hcid
        obtain ⟨A', M', B', hfold, hA', hM', hsub, hchild⟩ :=
          ih (insOrphan c l) (insertAfterFirst q c A) M B hl1 hA1 hM hos' hsome' hq1
        refine ⟨A', M', B', hfold, hA', hM', hsub, ?_⟩
        intro c' hc' hcp'
        rcases List.mem_cons.mp hc' with h | h
        · exact absurd (h ▸ hcp') hcnotchild
        · exact hchild c' h hcp'
      · have hPq : ¬ ((P.id == q) = true) := by
          simp only [beq_iff_eq]
          exact fun hcon => hqp hcon.symm
        have hMq' : ¬ (M.any (fun t => t.id == q) = true) := by
          rw [List.any_eq_false.mpr (fun m hm => by simpa using hMq m hm)]
          exact Bool.false_ne_true
        have hl1 : insOrphan c l = A ++ (P :: (M ++ insertAfterFirst q c B)) := by
          rw [hins, hl, insertAfterFirst_append, if_neg hAq, insertAfterFirst_cons,
            if_neg hPq, insertAfterFirst_append, if_neg hMq']
        obtain ⟨A', M', B', hfold, hA', hM', hsub, hchild⟩ :=
          ih (insOrphan c l) A M (insertAfterFirst q c B) hl1 hA hM hos' hsome' hq1
        refine ⟨A', M', B', hfold, hA', hM', hsub, ?_⟩
        intro c' hc' hcp'
        rcases List.mem_cons.mp hc' with h | h
        · exact absurd (h ▸ hcp') hcnotchild
        · exact hchild c' h hcp'

theorem phase1_snd : ∀ (ts : List GanttTask)
    (st : List (String × List GanttTask) × List GanttTask),
    (ts.foldl groupStep st).2 = st.2 ++ ts.filter (fun t => t.parentId.isSome) := by
  intro ts
  induction ts with
  | nil => intro st; simp
  | cons t ts' ih =>
    intro st
    rw [List.foldl_cons, ih (groupStep st t)]
    unfold groupStep
    by_cases hp : t.parentId.isSome = true
    · rw [if_pos hp, List.filter_cons]
      simp [hp]
    · rw [if_neg hp, List.filter_cons]
      simp [hp]

theorem mem_ensureBucket {b : String × List GanttTask}
    {bs : List (String × List GanttTask)} {k : String}
    (h : b ∈ ensureBucket bs k) : b ∈ bs ∨ b = (k, []) := by
  unfold ensureBucket at h
  by_cases hany : bs.any (fun b => b.1 == k) = true
  · rw [if_pos hany] at h
    exact Or.inl h
  · rw [if_neg hany] at h
    rcases List.mem_append.mp h with h | h
    · exact Or.inl h
    · exact Or.inr (List.mem_singleton.mp h)

theorem phase1_buckets_mem (Pr : GanttTask → Prop) : ∀ (ts : List GanttTask)
    (st : List (String × List GanttTask) × List GanttTask),
    (∀ b ∈ st.1, ∀ x ∈ b.2, Pr x) →
    (∀ t ∈ ts, t.parentId.isSome = false → Pr t) →
    ∀ b ∈ (ts.foldl groupStep st).1, ∀ x ∈ b.2, Pr x := by
  intro ts
  induction ts with
  | nil => intro st hst _; exact hst
  | cons t ts' ih =>
    intro st hst hts
    rw [List.foldl_cons]
    refine ih (groupStep st t) ?_ (fun y hy => hts y (List.mem_cons_of_mem t hy))
    intro b hb x hx
    unfold groupStep at hb
    have hens : ∀ b' ∈ ensureBucket st.1 (groupKeyOf t), ∀ y ∈ b'.2, Pr y := by
      intro b' hb' y hy
      rcases mem_ensureBucket hb' with h | h
      · exact hst b' h y hy
      · rw [h] at hy
        exact absurd hy (List.not_mem_nil y)
    by_cases hp : t.parentId.isSome = true
    · rw [if_pos hp] at hb
      exact hens b hb x hx
    · rw [if_neg hp] at hb
      obtain ⟨b', hb', hbeq⟩ := List.mem_map.mp hb
      by_cases hk : (b'.1 == groupKeyOf t) = true
      · rw [if_pos hk] at hbeq
        rw [← hbeq] at hx
        rcases List.mem_append.mp hx with h | h
        · exact hens b' hb' x h
        · rw [List.mem_singleton.mp h]
          exact hts t (List.mem_cons_self t ts') (by simpa using hp)
      · rw [if_neg hk] at hbeq
        exact hens b' hb' x (hbeq ▸ hx)

theorem first_occ_decomp (P : GanttTask) :
    ∀ (l : List GanttTask), P ∈ l → (∀ x ∈ l, x.id = P.id → x = P) →
    ∃ A B, l = A ++ (P :: B) ∧ NoId P.id A := by
  intro l
  induction l with
  | nil => intro h _; exact absurd h (List.not_mem_nil P)
  | cons y ys ih =>
    intro hP huniq
    by_cases hy : y.id = P.id
    · have : y = P := huniq y (List.mem_cons_self y ys) hy
      subst this
      exact ⟨[], ys, rfl, fun x hx => absurd hx (List.not_mem_nil x)⟩
    · have hyP : y ≠ P := fun hcon => hy (by rw [hcon])
      have hP' : P ∈ ys := by
        rcases List.mem_cons.mp hP with h | h
        · exact absurd h.symm hyP
        · exact h
      obtain ⟨A, B, hAB, hA⟩ :=
        ih hP' (fun x hx => huniq x (List.mem_cons_of_mem y hx))
      refine ⟨y :: A, B, by rw [hAB]; rfl, ?_⟩
      intro x hx
      rcases List.mem_cons.mp hx with h | h
      · exact h ▸ hy
      · exact hA x h

/-- C3 amended: in the grouped output, for a parent present in a bucket
(task ids distinct, parents being roots), every child appears in that
bucket *after* the parent with only other children of the same parent
between them — the children form a contiguous block starting immediately
after the parent (they stack in reverse arrival order), so only with a
single child is every child literally immediately after the parent. -/
theorem groupedTasks_child_block (vts : List GanttTask)
    (hid : ∀ x ∈ vts, ∀ y ∈ vts, x.id = y.id → x = y)
    (htwo : ∀ c ∈ vts, ∀ q, c.parentId = some q →
      ∀ m ∈ vts, m.id = q → m.parentId = none)
    (P : GanttTask) (hP : P ∈ vts) (hProot : P.parentId = none)
    (c : GanttTask) (hc : c ∈ vts) (hcP : c.parentId = some P.id)
    (b : String × List GanttTask) (hb : b ∈ groupedTasks vts) (hPb : P ∈ b.2) :
    ∃ pre mid post,
      b.2 = pre ++ (P :: (mid ++ (c :: post))) ∧
      ∀ x ∈ mid, x.parentId = some P.id := by
  unfold groupedTasks at hb
  rw [foldl_spliceOrphan_eq_map] at hb
  obtain ⟨b₀, hb₀, hbeq⟩ := List.mem_map.mp hb
  have hb2 : b.2 = (groupPhase1 vts).2.foldl (fun l c => insOrphan c l) b₀.2 := by
    rw [← hbeq]
  have hos_eq : (groupPhase1 vts).2 = vts.filter (fun t => t.parentId.isSome) := by
    unfold groupPhase1
    rw [phase1_snd]
    rfl
  have hosvts : ∀ x ∈ (groupPhase1 vts).2, x ∈ vts ∧ x.parentId.isSome := by
    intro x hx
    rw [hos_eq] at hx
    exact ⟨(List.mem_filter.mp hx).1, (List.mem_filter.mp hx).2⟩
  have hbuck : ∀ x ∈ b₀.2, x ∈ vts ∧ x.parentId = none := by
    refine phase1_buckets_mem (fun x => x ∈ vts ∧ x.parentId = none) vts ([], [])
      (by intro b' hb' x hx; exact absurd hb' (List.not_mem_nil b')) ?_ b₀ hb₀
    intro t ht hroot
    refine ⟨ht, ?_⟩
    rcases h : t.parentId with - | q
    · rfl
    · rw [h] at hroot
      exact absurd hroot (by simp)
  have hcos : c ∈ (groupPhase1 vts).2 := by
    rw [hos_eq]
    exact List.mem_filter.mpr ⟨hc, by rw [hcP]; rfl⟩
  have hPb₀ : P ∈ b₀.2 := by
    rw [hb2] at hPb
    rcases mem_foldl_insOrphan _ _ hPb with h | h
    · exact h
    · have := (hosvts P h).2
      rw [hProot] at this
      exact absurd this (by simp)
  obtain ⟨A, B, hAB, hA⟩ := first_occ_decomp P b₀.2 hPb₀
    (fun x hx hxid => hid x (hbuck x hx).1 P hP hxid)
  have hids : ∀ c' ∈ (groupPhase1 vts).2, c'.id ≠ P.id := by
    intro c' hc' hcon
    have hcv := hosvts c' hc'
    have : c' = P := hid c' hcv.1 P hP hcon
    rw [this, hProot] at hcv
    exact absurd hcv.2 (by simp)
  have hsomes : ∀ c' ∈ (groupPhase1 vts).2, c'.parentId.isSome :=
    fun c' hc' => (hosvts c' hc').2
  have hqcond : ∀ c' ∈ (groupPhase1 vts).2, ∀ q, c'.parentId = some q → q ≠ P.id →
      (∀ m, (m ∈ b₀.2 ∨ m ∈ (groupPhase1 vts).2) → m.parentId = some P.id →
        m.id ≠ q) := by
    intro c' hc' q hcq _ m hm hmp hcon
    rcases hm with hm | hm
    · rw [(hbuck m hm).2] at hmp
      exact Option.noConfusion hmp
    · have hmv := (hosvts m hm).1
      have := htwo c' (hosvts c' hc').1 q hcq m hmv hcon
      rw [this] at hmp
      exact Option.noConfusion hmp
  obtain ⟨A', M', B', hfold, hA', hM', -, hchild⟩ :=
    splice_block P (groupPhase1 vts).2 b₀.2 A [] B (by rw [hAB]; rfl) hA
      (fun x hx => absurd hx (List.not_mem_nil x)) hids hsomes hqcond
  have hcM : c ∈ M' := hchild c hcos hcP
  obtain ⟨s, t, hst⟩ := List.append_of_mem hcM
  refine ⟨A', s, t ++ B', ?_, ?_⟩
  · rw [hb2, hfold, hst, List.append_assoc, List.cons_append]
  · intro x hx
    exact hM' x (hst ▸ List.mem_append_left (c :: t) hx)

/-- The parent task of the C3 examples. -/
def parentTask : GanttTask := sampleTask "1" none "G" 0 1

/-- First child of `parentTask` (arrives first). -/
def childTask1 : GanttTask := sampleTask "2" (some "1") "G" 0 1

/-- Second child of `parentTask` (arrives second). -/
def childTask2 : GanttTask := sampleTask "3" (some "1") "G" 0 1

/-- Counterexample to C3 as stated: with two children, each splice lands
at `parentIndex + 1`, so the bucket ends up `[parent, child2, child1]` —
the parent occurs only at position 0, position 1 holds `child2`, so the
child `child1` does *not* appear immediately after its parent. -/
theorem groupedTasks_two_children_counterexample :
    groupedTasks [parentTask, childTask1, childTask2] =
      [("G", [parentTask, childTask2, childTask1])] ∧
    childTask1.parentId = some parentTask.id ∧
    childTask2.parentId = some parentTask.id ∧
    [parentTask, childTask2, childTask1][0]? = some parentTask ∧
    [parentTask, childTask2, childTask1][1]? ≠ some parentTask ∧
    [parentTask, childTask2, childTask1][2]? ≠ some parentTask ∧
    [parentTask, childTask2, childTask1][1]? ≠ some childTask1 := by
  exact ⟨by decide, by decide, by decide, by decide, by decide, by decide, by decide⟩

/-- Witness for C3 with a single child: the decomposition exists with the
child right after the parent. -/
theorem groupedTasks_child_block_witness :
    ∃ pre mid post,
      (("G", [parentTask, childTask1]) : String × List GanttTask).2 =
        pre ++ (parentTask :: (mid ++ (childTask1 :: post))) ∧
      ∀ x ∈ mid, x.parentId = some parentTask.id :=
  groupedTasks_child_block [parentTask, childTask1] (by decide) (by decide)
    parentTask (by decide) (by decide)
    childTask1 (by decide) (by decide)
    ("G", [parentTask, childTask1]) (by decide) (by decide)

/-- C10: a task with exactly one null endpoint is filtered out before
window computation and grouping: it is not a valid task, appears in no
group bucket, and every date collected for the window comes from a task
with both endpoints set. -/
theorem halfDated_never_rendered (tasks : List GanttTask) (t : GanttTask)
    (_ht : t ∈ tasks) (hnull : t.startDate = none ∨ t.endDate = none) :
    t ∉ validTasks tasks ∧
    (∀ b ∈ groupedTasksOf tasks, t ∉ b.2) ∧
    (∀ d ∈ collectDates (validTasks tasks),
      ∃ t' ∈ tasks, t'.startDate.isSome ∧ t'.endDate.isSome ∧
        (t'.startDate = some d ∨ t'.endDate = some d)) := by
  have hnv : t ∉ validTasks tasks := by
    intro hcon
    have hboth := (List.mem_filter.mp hcon).2
    rw [Bool.and_eq_true] at hboth
    rcases hnull with h | h
    · rw [h] at hboth
      exact absurd hboth.1 (by simp)
    · rw [h] at hboth
      exact absurd hboth.2 (by simp)
  refine ⟨hnv, ?_, ?_⟩
  · intro b hb htb
    unfold groupedTasksOf groupedTasks at hb
    rw [foldl_spliceOrphan_eq_map] at hb
    obtain ⟨b₀, hb₀, hbeq⟩ := List.mem_map.mp hb
    have htb' : t ∈ (groupPhase1 (validTasks tasks)).2.foldl
        (fun l c => insOrphan c l) b₀.2 := by
      rw [← hbeq] at htb
      exact htb
    rcases mem_foldl_insOrphan _ _ htb' with h | h
    · have : t ∈ validTasks tasks := by
        refine phase1_buckets_mem (fun x => x ∈ validTasks tasks) (validTasks tasks)
          ([], []) (by intro b' hb' x hx; exact absurd hb' (List.not_mem_nil b'))
          (fun x hx _ => hx) b₀ hb₀ t h
      exact hnv this
    · have hos_eq : (groupPhase1 (validTasks tasks)).2 =
          (validTasks tasks).filter (fun x => x.parentId.isSome) := by
        unfold groupPhase1
        rw [phase1_snd]
        rfl
      rw [hos_eq] at h
      exact hnv (List.mem_filter.mp h).1
  · intro d hd
    obtain ⟨t', ht', hor⟩ := (mem_collectDates _ d).mp hd
    have hf := List.mem_filter.mp ht'
    rw [Bool.and_eq_true] at hf
    exact ⟨t', hf.1, hf.2.1, hf.2.2, hor⟩

/-- Witness for C10: the half-dated sample task never reaches a bucket
and contributes no date. -/
theorem halfDated_never_rendered_witness :
    taskHalfDated ∉ validTasks [taskHalfDated, scenarioTask] ∧
    (∀ b ∈ groupedTasksOf [taskHalfDated, scenarioTask], taskHalfDated ∉ b.2) ∧
    (∀ d ∈ collectDates (validTasks [taskHalfDated, scenarioTask]),
      ∃ t' ∈ [taskHalfDated, scenarioTask], t'.startDate.isSome ∧ t'.endDate.isSome ∧
        (t'.startDate = some d ∨ t'.endDate = some d)) :=
  halfDated_never_rendered [taskHalfDated, scenarioTask] taskHalfDated
    (by decide) (by decide)
